import Mathlib

/-!
Verification of the TissueLab scheduler core (src/app of YohanV1/TissueLab-Scheduler).

The Python source is shallowly embedded:
  * pydantic records become Lean structures; Python float progress values are
    modelled as rationals;
  * the dictionaries of JobStore, WorkflowStore and the scheduler tables become
    association lists over String keys;
  * the asyncio tasks of app/scheduler.py and app/executor.py become a small-step
    relation on an explicit system state, one step per await-separated action of
    the source.
All definitions are translated from the source files; definitions whose name
contains "rowMajor" or "OfJobs" or "meanProgress" restate the specification text
and are proved equivalent to the source translation.
-/

set_option linter.unusedVariables false

namespace TLS

/-- Job lifecycle states, from app/schemas.py JobState. -/
inductive JobState where
  | PENDING
  | RUNNING
  | SUCCEEDED
  | FAILED
  | CANCELED
deriving DecidableEq, Repr

/-- Workflow aggregate states, from app/schemas.py WorkflowState. -/
inductive WorkflowState where
  | PENDING
  | RUNNING
  | SUCCEEDED
  | FAILED
deriving DecidableEq, Repr

/-- Job types, from app/schemas.py JobType. -/
inductive JobType where
  | SEGMENT_CELLS
  | TISSUE_MASK
deriving DecidableEq, Repr

/-- One job record, from app/schemas.py JobInfo.  Progress is a rational in
place of the Python float. -/
structure JobRec where
  job_id : String
  workflow_id : String
  user_id : String
  file_id : String
  job_type : JobType
  branch : Option String
  state : JobState
  progress : ℚ
  tiles_processed : Nat
  tiles_total : Nat
  result_path : Option String
deriving DecidableEq, Repr

/-- Association-list lookup; the first binding of a key wins, matching a
Python dict in which keys are unique. -/
def alookup {α β : Type} [DecidableEq α] (l : List (α × β)) (a : α) : Option β :=
  match l with
  | [] => none
  | (a1, b1) :: t => if a1 = a then some b1 else alookup t a

/-- Association-list insert-or-replace, matching Python dict assignment. -/
def aset {α β : Type} [DecidableEq α] (l : List (α × β)) (a : α) (b : β) : List (α × β) :=
  match l with
  | [] => [(a, b)]
  | (a1, b1) :: t => if a1 = a then (a, b) :: t else (a1, b1) :: aset t a b

/-- Association-list removal of a key, matching Python dict pop / set discard. -/
def aremove {α β : Type} [DecidableEq α] (l : List (α × β)) (a : α) : List (α × β) :=
  l.filter (fun p => !(decide (p.1 = a)))

/-- The mapping job_id to JobRec held by app/store.py JobStore. -/
abbrev JobStore := List (String × JobRec)

/-- JobStore.update_job_state from app/store.py: look the job up, and if present
set its state unconditionally, returning the updated record and store. -/
def update_job_state (jobs : JobStore) (job_id : String) (st : JobState) :
    Option JobRec × JobStore :=
  match alookup jobs job_id with
  | none => (none, jobs)
  | some j =>
    let j2 := { j with state := st }
    (some j2, aset jobs job_id j2)

/-- JobStore.set_job_progress from app/store.py.  The source guards the tile
updates with tiles_total greater than 0 and tiles_processed at least 0; the
latter always holds for naturals, as it does for every call site in the
source. -/
def set_job_progress (jobs : JobStore) (job_id : String) (progress : ℚ)
    (tiles_processed tiles_total : Nat) : Option JobRec × JobStore :=
  match alookup jobs job_id with
  | none => (none, jobs)
  | some j =>
    let j1 := { j with progress := progress }
    let j2 := if 0 < tiles_total then { j1 with tiles_total := tiles_total } else j1
    let j3 := { j2 with tiles_processed := tiles_processed }
    (some j3, aset jobs job_id j3)

/-- JobStore.set_job_result_path from app/store.py. -/
def set_job_result_path (jobs : JobStore) (job_id : String) (path : String) :
    Option JobRec × JobStore :=
  match alookup jobs job_id with
  | none => (none, jobs)
  | some j =>
    let j2 := { j with result_path := some path }
    (some j2, aset jobs job_id j2)

/-- JobStore.reset_for_retry from app/store.py: a no-op returning the record
unchanged when the job is RUNNING, otherwise state PENDING, progress 0 and
cleared result path, tile counters untouched. -/
def reset_for_retry (jobs : JobStore) (job_id : String) : Option JobRec × JobStore :=
  match alookup jobs job_id with
  | none => (none, jobs)
  | some j =>
    if j.state = JobState.RUNNING then (some j, jobs)
    else
      let j2 := { j with state := JobState.PENDING, progress := 0, result_path := none }
      (some j2, aset jobs job_id j2)

/-- JobStore.cancel_job_if_pending from app/store.py. -/
def cancel_job_if_pending (jobs : JobStore) (job_id : String) : Option JobRec × JobStore :=
  match alookup jobs job_id with
  | none => (none, jobs)
  | some j =>
    if j.state ≠ JobState.PENDING then (some j, jobs)
    else
      let j2 := { j with state := JobState.CANCELED }
      (some j2, aset jobs job_id j2)

/-- app/settings.py MAX_WORKERS. -/
def MAX_WORKERS : Nat := 4

/-- app/settings.py MAX_ACTIVE_USERS. -/
def MAX_ACTIVE_USERS : Nat := 3

/-- app/settings.py ENABLE_INSTANTSEG. -/
def ENABLE_INSTANTSEG : Bool := true

/-- app/settings.py TILE_SIZE. -/
def TILE_SIZE : Nat := 1024

/-- app/settings.py TILE_OVERLAP. -/
def TILE_OVERLAP : Nat := 64

/-- Inner while loop of iter_tiles in app/executor.py run_job: columns starting
at x, advancing by step while x is below the image width; each yielded tuple is
(x, y, tile width, tile height). -/
def tileRow (ts step imgW y h : Nat) (hstep : 0 < step) (x : Nat) :
    List (Nat × Nat × Nat × Nat) :=
  if hx : x < imgW then
    (x, y, min ts (imgW - x), h) :: tileRow ts step imgW y h hstep (x + step)
  else []
termination_by imgW - x
decreasing_by omega

/-- Outer while loop of iter_tiles in app/executor.py run_job: rows starting at
y, advancing by step while y is below the image height. -/
def iterTilesAux (ts step imgW imgH : Nat) (hstep : 0 < step) (y : Nat) :
    List (Nat × Nat × Nat × Nat) :=
  if hy : y < imgH then
    tileRow ts step imgW y (min ts (imgH - y)) hstep 0
      ++ iterTilesAux ts step imgW imgH hstep (y + step)
  else []
termination_by imgH - y
decreasing_by omega

/-- iter_tiles of app/executor.py with the tile size and overlap as parameters;
the step is the tile size minus the overlap, and the generator runs from the
origin. -/
def iterTilesWith (ts ov imgW imgH : Nat) (hov : ov < ts) :
    List (Nat × Nat × Nat × Nat) :=
  iterTilesAux ts (ts - ov) imgW imgH (by omega) 0

/-- iter_tiles of app/executor.py at the configured TILE_SIZE and TILE_OVERLAP
from app/settings.py. -/
def iter_tiles (imgW imgH : Nat) : List (Nat × Nat × Nat × Nat) :=
  iterTilesWith TILE_SIZE TILE_OVERLAP imgW imgH (by decide)

/-- Ceiling division: the number of grid positions 0, s, 2s, ... strictly below
n, for positive s. -/
def cdiv (n s : Nat) : Nat := (n + s - 1) / s

/-- The tile enumeration as the specification words it: rows at multiples of
the step below the height, in each row columns at multiples of the step below
the width, each tile clipped to the image. -/
def rowMajorTiles (ts ov imgW imgH : Nat) : List (Nat × Nat × Nat × Nat) :=
  let step := ts - ov
  (List.range' 0 (cdiv imgH step) step).flatMap (fun y =>
    (List.range' 0 (cdiv imgW step) step).map (fun x =>
      (x, y, min ts (imgW - x), min ts (imgH - y))))

/-- Effective branch of a job, from the source expression
job.branch or "__default__" used in app/scheduler.py: Python treats an absent
branch and an empty-string branch alike as falsy. -/
def effective_branch (j : JobRec) : String :=
  match j.branch with
  | none => "__default__"
  | some b => if b = "" then "__default__" else b

/-- Branch-lock key of a job, the pair used to index _branch_locks in
app/scheduler.py. -/
def effKey (j : JobRec) : String × String := (j.workflow_id, effective_branch j)

/-- Workflow aggregate record, from app/schemas.py WorkflowInfo with rational
percent. -/
structure WorkflowInfoR where
  workflow_id : String
  user_id : String
  state : WorkflowState
  percent_complete : ℚ
deriving DecidableEq, Repr

/-- WorkflowStore.get_workflow_info from app/workflow_store.py: none for an
unknown workflow; otherwise aggregate over the jobs carrying this workflow id,
with an early PENDING result when there are none. -/
def get_workflow_info (workflows : List (String × (String × String))) (jobs : JobStore)
    (workflow_id : String) : Option WorkflowInfoR :=
  match alookup workflows workflow_id with
  | none => none
  | some (owner_user_id, _) =>
    let js := (jobs.map Prod.snd).filter (fun j => j.workflow_id == workflow_id)
    if js.isEmpty then some ⟨workflow_id, owner_user_id, WorkflowState.PENDING, 0⟩
    else
      let avg_progress := (js.map (fun j => j.progress)).sum / (js.length : ℚ)
      let st :=
        if js.any (fun j => j.state == JobState.FAILED) then WorkflowState.FAILED
        else if js.all (fun j => j.state == JobState.SUCCEEDED) then WorkflowState.SUCCEEDED
        else if js.any (fun j => j.state == JobState.RUNNING) then WorkflowState.RUNNING
        else WorkflowState.PENDING
      some ⟨workflow_id, owner_user_id, st, avg_progress⟩

/-- Workflow state derivation as the specification words it. -/
def workflowStateOfJobs (js : List JobRec) : WorkflowState :=
  if js.any (fun j => j.state == JobState.FAILED) then WorkflowState.FAILED
  else if !js.isEmpty && js.all (fun j => j.state == JobState.SUCCEEDED) then
    WorkflowState.SUCCEEDED
  else if js.any (fun j => j.state == JobState.RUNNING) then WorkflowState.RUNNING
  else WorkflowState.PENDING

/-- Mean member progress as the specification words it: the arithmetic mean,
0 for an empty member set. -/
def meanProgress (js : List JobRec) : ℚ :=
  if js.isEmpty then 0 else (js.map (fun j => j.progress)).sum / (js.length : ℚ)

/-- Queue status payload of get_queue_status_for_job in app/scheduler.py. -/
structure QueueStatus where
  active_users : Nat
  max_active_users : Nat
  active_workers : Nat
  max_workers : Nat
  queued : Bool
  waiting_for : List String
deriving DecidableEq, Repr

/-- The waiting_for list built by get_queue_status_for_job in app/scheduler.py
for a PENDING job: BRANCH when another job of the same workflow and effective
branch is RUNNING, USER_SLOT when the user gate is full for a new user, WORKER
when the worker counter is at capacity, in that order. -/
def waiting_for_of (jobs : JobStore) (active_user_ids : List String)
    (active_workers : Nat) (job : JobRec) : List String :=
  (if (jobs.map Prod.snd).any (fun j =>
      j.workflow_id == job.workflow_id
        && effective_branch j == effective_branch job
        && j.job_id != job.job_id
        && j.state == JobState.RUNNING) then ["BRANCH"] else [])
    ++ (if !active_user_ids.contains job.user_id
            && MAX_ACTIVE_USERS ≤ active_user_ids.length then ["USER_SLOT"] else [])
    ++ (if MAX_WORKERS ≤ active_workers then ["WORKER"] else [])

/-- get_queue_status_for_job from app/scheduler.py, as a function of the job
store and of the scheduler globals it reads (_active_user_ids and
_active_workers). -/
def get_queue_status_for_job (jobs : JobStore) (active_user_ids : List String)
    (active_workers : Nat) (job_id : String) : Option QueueStatus :=
  match alookup jobs job_id with
  | none => none
  | some job =>
    let queued := job.state == JobState.PENDING
    let waiting_for : List String :=
      if queued then waiting_for_of jobs active_user_ids active_workers job else []
    some ⟨active_user_ids.length, MAX_ACTIVE_USERS, active_workers, MAX_WORKERS,
          queued, waiting_for⟩

/-- The retry endpoint from app/api_jobs.py retry_job: 404 for a missing or
foreign job, 409 for a RUNNING job, otherwise JobStore.reset_for_retry. -/
def retry_job (jobs : JobStore) (job_id x_user_id : String) :
    Except (Nat × String) JobStore :=
  match alookup jobs job_id with
  | none => Except.error (404, "Job not found")
  | some job =>
    if job.user_id ≠ x_user_id then Except.error (404, "Job not found")
    else if job.state = JobState.RUNNING then
      Except.error (409, "Cannot retry a RUNNING job")
    else Except.ok (reset_for_retry jobs job_id).2

/-- Per-job output directory, from app/file_store.py get_job_dir. -/
def jobDir (job_id : String) : String := "uploads/results/" ++ job_id

/-- Manifest artifact path written by app/executor.py run_job. -/
def manifestPath (job_id : String) : String := jobDir job_id ++ "/manifest.json"

/-- Error artifact path written by the failure handler of run_job. -/
def errorPath (job_id : String) : String := jobDir job_id ++ "/error.json"

/-- Number of loop iterations of run_job for a job: the tile count of the
source image on the tiled paths, the constant simulated count otherwise.
The avail flag abstracts instanseg_available() and env gives each file its
decoded dimensions. -/
def tile_total (avail : Bool) (env : String → Nat × Nat) (j : JobRec) : Nat :=
  if j.job_type = JobType.SEGMENT_CELLS ∧ ENABLE_INSTANTSEG = true ∧ avail = true then
    (iter_tiles (env j.file_id).1 (env j.file_id).2).length
  else if j.job_type = JobType.TISSUE_MASK then
    (iter_tiles (env j.file_id).1 (env j.file_id).2).length
  else if j.job_type = JobType.SEGMENT_CELLS then 20
  else 12

/-- Whether run_job takes a tiled path (which reports tile counters with each
progress update) rather than the simulated path (which reports progress only). -/
def real_tiled (avail : Bool) (j : JobRec) : Bool :=
  (j.job_type == JobType.SEGMENT_CELLS && ENABLE_INSTANTSEG && avail)
    || j.job_type == JobType.TISSUE_MASK

/-- Program counter of one scheduler worker task (app/scheduler.py _worker
inlined with app/executor.py run_job).  From check1 on, the task carries the
branch-lock key and the user id it read from the job, as the source keeps them
in locals. -/
inductive WPC where
  | start
  | acqBranch (key : String × String) (user : String)
  | check1 (key : String × String) (user : String)
  | acqUser (key : String × String) (user : String)
  | check2 (key : String × String) (user : String)
  | acqSem (key : String × String) (user : String)
  | check3 (key : String × String) (user : String)
  | setRunning (key : String × String) (user : String)
  | loop (key : String × String) (user : String) (real : Bool) (processed total : Nat)
  | finish (key : String × String) (user : String)
  | setPath (key : String × String) (user : String)
  | setSucceeded (key : String × String) (user : String)
  | failSetPath (key : String × String) (user : String)
  | failSetState (key : String × String) (user : String)
deriving DecidableEq, Repr

/-- The branch-lock key a task has read from its job (set from acqBranch on). -/
def pcKey : WPC → Option (String × String)
  | WPC.start => none
  | WPC.acqBranch k _ => some k
  | WPC.check1 k _ => some k
  | WPC.acqUser k _ => some k
  | WPC.check2 k _ => some k
  | WPC.acqSem k _ => some k
  | WPC.check3 k _ => some k
  | WPC.setRunning k _ => some k
  | WPC.loop k _ _ _ _ => some k
  | WPC.finish k _ => some k
  | WPC.setPath k _ => some k
  | WPC.setSucceeded k _ => some k
  | WPC.failSetPath k _ => some k
  | WPC.failSetState k _ => some k

/-- The branch-lock key a task currently holds: set from check1 (inside the
async with) until the lock is released on exit. -/
def heldKey : WPC → Option (String × String)
  | WPC.start => none
  | WPC.acqBranch _ _ => none
  | pc => pcKey pc

/-- Whether a task is inside run_job after the RUNNING transition. -/
def isExec : WPC → Bool
  | WPC.loop _ _ _ _ _ => true
  | WPC.finish _ _ => true
  | WPC.setPath _ _ => true
  | WPC.setSucceeded _ _ => true
  | WPC.failSetPath _ _ => true
  | WPC.failSetState _ _ => true
  | _ => false

/-- Whole-system state: the job store, the artifact paths written to disk, and
the module-level scheduler state of app/scheduler.py (_scheduled,
_branch_locks as the map from key to holding task, the user gate, the worker
counter and semaphore, and the live worker tasks). -/
structure Sys where
  jobs : JobStore
  disk : List String
  scheduled : List String
  branchOwner : List ((String × String) × String)
  activeUserIds : List String
  activeUserCounts : List (String × Nat)
  activeWorkers : Nat
  semAvail : Nat
  tasks : List (String × WPC)
deriving DecidableEq, Repr

/-- Fresh process state: empty stores, no tasks, full semaphore. -/
def Sys.init : Sys :=
  { jobs := [], disk := [], scheduled := [], branchOwner := [], activeUserIds := [],
    activeUserCounts := [], activeWorkers := 0, semAvail := MAX_WORKERS, tasks := [] }

/-- Replace the program counter of the task with the given id. -/
def taskUpd (tasks : List (String × WPC)) (id : String) (pc : WPC) :
    List (String × WPC) :=
  (id, pc) :: aremove tasks id

/-- Remove a plain string from a list, matching set.discard. -/
def sremove (l : List String) (id : String) : List String :=
  l.filter (fun v => !(decide (v = id)))

/-- enqueue_job from app/scheduler.py: a no-op when the job is already in the
_scheduled dedup set, otherwise record it and spawn one worker task at its
first instruction. -/
def enqueue_job (s : Sys) (job_id : String) : Sys :=
  if job_id ∈ s.scheduled then s
  else { s with scheduled := job_id :: s.scheduled,
                tasks := (job_id, WPC.start) :: s.tasks }

/-- _acquire_user_slot from app/scheduler.py, after its wait predicate has been
established: admit the user if new, then bump its running count. -/
def acquire_user_slot (s : Sys) (u : String) : Sys :=
  let ids1 := if u ∈ s.activeUserIds then s.activeUserIds else u :: s.activeUserIds
  let counts1 := if u ∈ s.activeUserIds then s.activeUserCounts
                 else aset s.activeUserCounts u 0
  { s with activeUserIds := ids1,
           activeUserCounts := aset counts1 u ((alookup counts1 u).getD 0 + 1) }

/-- _release_user_slot from app/scheduler.py: decrement the count and drop the
user (broadcasting the condition) when it reaches zero. -/
def release_user_slot (s : Sys) (u : String) : Sys :=
  match alookup s.activeUserCounts u with
  | none => s
  | some c =>
    if c ≤ 1 then
      { s with activeUserCounts := aremove s.activeUserCounts u,
               activeUserIds := sremove s.activeUserIds u }
    else { s with activeUserCounts := aset s.activeUserCounts u (c - 1) }

/-- The re-read guard of _worker: the job has vanished or is CANCELED. -/
def cancelled_or_missing (jobs : JobStore) (job_id : String) : Bool :=
  match alookup jobs job_id with
  | none => true
  | some j => j.state == JobState.CANCELED

/-- A fresh PENDING record as JobStore.create_job builds it. -/
def create_job_rec (job_id workflow_id user_id file_id : String) (jt : JobType)
    (branch : Option String) : JobRec :=
  { job_id := job_id, workflow_id := workflow_id, user_id := user_id,
    file_id := file_id, job_type := jt, branch := branch,
    state := JobState.PENDING, progress := 0, tiles_processed := 0,
    tiles_total := 0, result_path := none }

/-- One await-separated action of the system: the frontend operations (create,
enqueue, cancel, retry) and each suspension point of a worker task running
_worker and run_job.  The env parameter maps a file id to the decoded
dimensions of its image and avail abstracts instanseg_available(). -/
inductive Step (env : String → Nat × Nat) (avail : Bool) : Sys → Sys → Prop where
  | create (s : Sys) (job_id workflow_id user_id file_id : String) (jt : JobType)
      (branch : Option String) (hfresh : alookup s.jobs job_id = none) :
      Step env avail s
        { s with jobs :=
                   aset s.jobs job_id
                     (create_job_rec job_id workflow_id user_id file_id jt branch) }
  | enqueue (s : Sys) (job_id : String) :
      Step env avail s (enqueue_job s job_id)
  | cancel (s : Sys) (job_id : String) :
      Step env avail s { s with jobs := (cancel_job_if_pending s.jobs job_id).2 }
  | retry (s : Sys) (job_id : String) :
      Step env avail s { s with jobs := (reset_for_retry s.jobs job_id).2 }
  | startFound (s : Sys) (id : String) (jr : JobRec)
      (htask : (id, WPC.start) ∈ s.tasks) (hjob : alookup s.jobs id = some jr) :
      Step env avail s
        { s with tasks := taskUpd s.tasks id (WPC.acqBranch (effKey jr) jr.user_id) }
  | startMissing (s : Sys) (id : String)
      (htask : (id, WPC.start) ∈ s.tasks) (hjob : alookup s.jobs id = none) :
      Step env avail s
        { s with tasks := aremove s.tasks id, scheduled := sremove s.scheduled id }
  | acqBranch (s : Sys) (id : String) (k : String × String) (u : String)
      (htask : (id, WPC.acqBranch k u) ∈ s.tasks)
      (hfree : alookup s.branchOwner k = none) :
      Step env avail s
        { s with branchOwner := (k, id) :: s.branchOwner,
                 tasks := taskUpd s.tasks id (WPC.check1 k u) }
  | check1Exit (s : Sys) (id : String) (k : String × String) (u : String)
      (htask : (id, WPC.check1 k u) ∈ s.tasks)
      (hcm : cancelled_or_missing s.jobs id = true) :
      Step env avail s
        { s with branchOwner := aremove s.branchOwner k,
                 tasks := aremove s.tasks id, scheduled := sremove s.scheduled id }
  | check1Go (s : Sys) (id : String) (k : String × String) (u : String)
      (htask : (id, WPC.check1 k u) ∈ s.tasks)
      (hcm : cancelled_or_missing s.jobs id = false) :
      Step env avail s { s with tasks := taskUpd s.tasks id (WPC.acqUser k u) }
  | acqUser (s : Sys) (id : String) (k : String × String) (u : String)
      (htask : (id, WPC.acqUser k u) ∈ s.tasks)
      (hgate : u ∈ s.activeUserIds ∨ s.activeUserIds.length < MAX_ACTIVE_USERS) :
      Step env avail s
        (acquire_user_slot { s with tasks := taskUpd s.tasks id (WPC.check2 k u) } u)
  | check2Exit (s : Sys) (id : String) (k : String × String) (u : String)
      (htask : (id, WPC.check2 k u) ∈ s.tasks)
      (hcm : cancelled_or_missing s.jobs id = true) :
      Step env avail s
        (release_user_slot
          { s with branchOwner := aremove s.branchOwner k,
                   tasks := aremove s.tasks id,
                   scheduled := sremove s.scheduled id } u)
  | check2Go (s : Sys) (id : String) (k : String × String) (u : String)
      (htask : (id, WPC.check2 k u) ∈ s.tasks)
      (hcm : cancelled_or_missing s.jobs id = false) :
      Step env avail s { s with tasks := taskUpd s.tasks id (WPC.acqSem k u) }
  | acqSem (s : Sys) (id : String) (k : String × String) (u : String)
      (htask : (id, WPC.acqSem k u) ∈ s.tasks) (hsem : 0 < s.semAvail) :
      Step env avail s
        { s with semAvail := s.semAvail - 1,
                 tasks := taskUpd s.tasks id (WPC.check3 k u) }
  | check3Exit (s : Sys) (id : String) (k : String × String) (u : String)
      (htask : (id, WPC.check3 k u) ∈ s.tasks)
      (hcm : cancelled_or_missing s.jobs id = true) :
      Step env avail s
        (release_user_slot
          { s with semAvail := s.semAvail + 1,
                   branchOwner := aremove s.branchOwner k,
                   tasks := aremove s.tasks id,
                   scheduled := sremove s.scheduled id } u)
  | check3Go (s : Sys) (id : String) (k : String × String) (u : String)
      (htask : (id, WPC.check3 k u) ∈ s.tasks)
      (hcm : cancelled_or_missing s.jobs id = false) :
      Step env avail s
        { s with activeWorkers := s.activeWorkers + 1,
                 tasks := taskUpd s.tasks id (WPC.setRunning k u) }
  | setRunningFound (s : Sys) (id : String) (k : String × String) (u : String)
      (jr : JobRec) (htask : (id, WPC.setRunning k u) ∈ s.tasks)
      (hjob : alookup s.jobs id = some jr) :
      Step env avail s
        { s with jobs := (update_job_state s.jobs id JobState.RUNNING).2,
                 tasks := taskUpd s.tasks id
                   (WPC.loop k u (real_tiled avail jr) 0 (tile_total avail env jr)) }
  | setRunningMissing (s : Sys) (id : String) (k : String × String) (u : String)
      (htask : (id, WPC.setRunning k u) ∈ s.tasks)
      (hjob : alookup s.jobs id = none) :
      Step env avail s
        (release_user_slot
          { s with activeWorkers := s.activeWorkers - 1,
                   semAvail := s.semAvail + 1,
                   branchOwner := aremove s.branchOwner k,
                   tasks := aremove s.tasks id,
                   scheduled := sremove s.scheduled id } u)
  | loopStep (s : Sys) (id : String) (k : String × String) (u : String)
      (real : Bool) (p t : Nat)
      (htask : (id, WPC.loop k u real p t) ∈ s.tasks) (hlt : p < t) :
      Step env avail s
        { s with jobs := (set_job_progress s.jobs id ((p + 1 : ℚ) / (t : ℚ))
                    (if real then p + 1 else 0) (if real then t else 0)).2,
                 tasks := taskUpd s.tasks id (WPC.loop k u real (p + 1) t) }
  | loopDone (s : Sys) (id : String) (k : String × String) (u : String)
      (real : Bool) (p t : Nat)
      (htask : (id, WPC.loop k u real p t) ∈ s.tasks) (hge : ¬ p < t) :
      Step env avail s { s with tasks := taskUpd s.tasks id (WPC.finish k u) }
  | raiseLoop (s : Sys) (id : String) (k : String × String) (u : String)
      (real : Bool) (p t : Nat)
      (htask : (id, WPC.loop k u real p t) ∈ s.tasks) :
      Step env avail s
        { s with disk := errorPath id :: s.disk,
                 tasks := taskUpd s.tasks id (WPC.failSetPath k u) }
  | raiseFinish (s : Sys) (id : String) (k : String × String) (u : String)
      (htask : (id, WPC.finish k u) ∈ s.tasks) :
      Step env avail s
        { s with disk := errorPath id :: s.disk,
                 tasks := taskUpd s.tasks id (WPC.failSetPath k u) }
  | finishOk (s : Sys) (id : String) (k : String × String) (u : String)
      (htask : (id, WPC.finish k u) ∈ s.tasks) :
      Step env avail s
        { s with disk := manifestPath id :: s.disk,
                 tasks := taskUpd s.tasks id (WPC.setPath k u) }
  | setPathStep (s : Sys) (id : String) (k : String × String) (u : String)
      (htask : (id, WPC.setPath k u) ∈ s.tasks) :
      Step env avail s
        { s with jobs := (set_job_result_path s.jobs id (manifestPath id)).2,
                 tasks := taskUpd s.tasks id (WPC.setSucceeded k u) }
  | succeedStep (s : Sys) (id : String) (k : String × String) (u : String)
      (htask : (id, WPC.setSucceeded k u) ∈ s.tasks) :
      Step env avail s
        (release_user_slot
          { s with jobs := (update_job_state s.jobs id JobState.SUCCEEDED).2,
                   activeWorkers := s.activeWorkers - 1,
                   semAvail := s.semAvail + 1,
                   branchOwner := aremove s.branchOwner k,
                   tasks := aremove s.tasks id,
                   scheduled := sremove s.scheduled id } u)
  | failSetPathStep (s : Sys) (id : String) (k : String × String) (u : String)
      (htask : (id, WPC.failSetPath k u) ∈ s.tasks) :
      Step env avail s
        { s with jobs := (set_job_result_path s.jobs id (errorPath id)).2,
                 tasks := taskUpd s.tasks id (WPC.failSetState k u) }
  | failStateStep (s : Sys) (id : String) (k : String × String) (u : String)
      (htask : (id, WPC.failSetState k u) ∈ s.tasks) :
      Step env avail s
        (release_user_slot
          { s with jobs := (update_job_state s.jobs id JobState.FAILED).2,
                   activeWorkers := s.activeWorkers - 1,
                   semAvail := s.semAvail + 1,
                   branchOwner := aremove s.branchOwner k,
                   tasks := aremove s.tasks id,
                   scheduled := sremove s.scheduled id } u)

/-- States reachable from a fresh process by the step relation. -/
def Reachable (env : String → Nat × Nat) (avail : Bool) (s : Sys) : Prop :=
  Relation.ReflTransGen (Step env avail) Sys.init s

/-- Inductive invariant of the system, proved preserved by every step.  The
run component is the serial-branch property carrier: a RUNNING job always has
its worker task inside run_job holding its branch-lock key. -/
structure Inv (env : String → Nat × Nat) (avail : Bool) (s : Sys) : Prop where
  tasksNodup : (s.tasks.map Prod.fst).Nodup
  taskSched : ∀ id pc, (id, pc) ∈ s.tasks → id ∈ s.scheduled
  held : ∀ id pc k, (id, pc) ∈ s.tasks → heldKey pc = some k →
    alookup s.branchOwner k = some id
  keyJob : ∀ id pc k, (id, pc) ∈ s.tasks → pcKey pc = some k →
    ∃ jr, alookup s.jobs id = some jr ∧ effKey jr = k
  execRun : ∀ id pc, (id, pc) ∈ s.tasks → isExec pc = true →
    ∃ jr, alookup s.jobs id = some jr ∧ jr.state = JobState.RUNNING
  run : ∀ id jr, alookup s.jobs id = some jr → jr.state = JobState.RUNNING →
    ∃ pc, (id, pc) ∈ s.tasks ∧ isExec pc = true ∧ heldKey pc = some (effKey jr)
  loopInv : ∀ id k u real p t, (id, WPC.loop k u real p t) ∈ s.tasks →
    p ≤ t ∧ ∃ jr, alookup s.jobs id = some jr ∧ t = tile_total avail env jr ∧
      (0 < p → jr.progress = (p : ℚ) / (t : ℚ))
  finishPc : ∀ id k u, (id, WPC.finish k u) ∈ s.tasks →
    ∃ jr, alookup s.jobs id = some jr ∧
      ((∀ f, 0 < (env f).1 ∧ 0 < (env f).2) → jr.progress = 1)
  setPathPc : ∀ id k u, (id, WPC.setPath k u) ∈ s.tasks →
    ∃ jr, alookup s.jobs id = some jr ∧
      ((∀ f, 0 < (env f).1 ∧ 0 < (env f).2) → jr.progress = 1) ∧
      manifestPath id ∈ s.disk
  sucPc : ∀ id k u, (id, WPC.setSucceeded k u) ∈ s.tasks →
    ∃ jr, alookup s.jobs id = some jr ∧
      ((∀ f, 0 < (env f).1 ∧ 0 < (env f).2) → jr.progress = 1) ∧
      jr.result_path = some (manifestPath id) ∧ manifestPath id ∈ s.disk
  failPc1 : ∀ id k u, (id, WPC.failSetPath k u) ∈ s.tasks → errorPath id ∈ s.disk
  failPc2 : ∀ id k u, (id, WPC.failSetState k u) ∈ s.tasks →
    ∃ jr, alookup s.jobs id = some jr ∧
      jr.result_path = some (errorPath id) ∧ errorPath id ∈ s.disk
  suc : ∀ id jr, alookup s.jobs id = some jr → jr.state = JobState.SUCCEEDED →
    ((∀ f, 0 < (env f).1 ∧ 0 < (env f).2) → jr.progress = 1) ∧
      jr.result_path = some (manifestPath id) ∧ manifestPath id ∈ s.disk
  fai : ∀ id jr, alookup s.jobs id = some jr → jr.state = JobState.FAILED →
    jr.result_path = some (errorPath id) ∧ errorPath id ∈ s.disk

/-- Witness data: a RUNNING job. -/
def jrRunning : JobRec :=
  { job_id := "j1", workflow_id := "w1", user_id := "u1", file_id := "f1",
    job_type := JobType.TISSUE_MASK, branch := none, state := JobState.RUNNING,
    progress := 1/2, tiles_processed := 3, tiles_total := 6, result_path := none }

/-- Witness data: a store holding one RUNNING job. -/
def jobsRunning : JobStore := [("j1", jrRunning)]

/-- Witness data: a SUCCEEDED member job of workflow w1. -/
def jrSucceededW : JobRec :=
  { job_id := "j1", workflow_id := "w1", user_id := "u1", file_id := "f1",
    job_type := JobType.TISSUE_MASK, branch := none, state := JobState.SUCCEEDED,
    progress := 1, tiles_processed := 6, tiles_total := 6,
    result_path := some "uploads/results/j1/manifest.json" }

/-- Witness data: a CANCELED member job of workflow w1. -/
def jrCanceledW : JobRec :=
  { job_id := "j2", workflow_id := "w1", user_id := "u1", file_id := "f2",
    job_type := JobType.SEGMENT_CELLS, branch := none, state := JobState.CANCELED,
    progress := 0, tiles_processed := 0, tiles_total := 0, result_path := none }

/-- Witness data: one workflow owned by u1. -/
def wfsW : List (String × String × String) := [("w1", ("u1", "wf"))]

/-- Witness data: the member jobs of workflow w1. -/
def jobsW : JobStore := [("j1", jrSucceededW), ("j2", jrCanceledW)]

/-- Witness data: a PENDING job whose branch peer is RUNNING. -/
def jrPendQ : JobRec :=
  { job_id := "p1", workflow_id := "w1", user_id := "u9", file_id := "f1",
    job_type := JobType.TISSUE_MASK, branch := some "b", state := JobState.PENDING,
    progress := 0, tiles_processed := 0, tiles_total := 0, result_path := none }

/-- Witness data: a RUNNING job on the same workflow and branch. -/
def jrRunQ : JobRec :=
  { job_id := "r1", workflow_id := "w1", user_id := "u2", file_id := "f2",
    job_type := JobType.TISSUE_MASK, branch := some "b", state := JobState.RUNNING,
    progress := 1/2, tiles_processed := 3, tiles_total := 6, result_path := none }

/-- Witness data: the store for the queue-status scenario. -/
def jobsQ : JobStore := [("p1", jrPendQ), ("r1", jrRunQ)]

/-- Witness data: a full set of active users not containing u9. -/
def idsQ : List String := ["a", "b", "c"]

/-! Witness trace: a concrete run of the step relation that creates two jobs
on the same workflow and default branch, schedules the first and drives its
worker through the whole pipeline.  The environment decodes every file as a
one-by-one pixel image, so the tiled loop runs for exactly one tile. -/

/-- Witness environment: every file decodes to a 1 by 1 image. -/
def env0 : String → Nat × Nat := fun _ => (1, 1)

/-- Witness job record jA on workflow w1, default branch. -/
def jrA : JobRec := create_job_rec "jA" "w1" "uA" "f1" JobType.TISSUE_MASK none

/-- Witness job record jB on the same workflow and branch as jA. -/
def jrB : JobRec := create_job_rec "jB" "w1" "uB" "f1" JobType.TISSUE_MASK none

/-- The shared branch-lock key of jA and jB. -/
def kA : String × String := ("w1", "__default__")

/-- Trace state after creating jA. -/
def w1 : Sys := { Sys.init with jobs := aset Sys.init.jobs "jA" jrA }

/-- Trace state after also creating jB. -/
def w2 : Sys := { w1 with jobs := aset w1.jobs "jB" jrB }

/-- Trace state after enqueuing jA. -/
def w3 : Sys := enqueue_job w2 "jA"

/-- Trace state after the worker of jA read its record. -/
def w4 : Sys := { w3 with tasks := taskUpd w3.tasks "jA" (WPC.acqBranch kA "uA") }

/-- Trace state after the worker acquired the branch lock. -/
def w5 : Sys := { w4 with branchOwner := (kA, "jA") :: w4.branchOwner,
                          tasks := taskUpd w4.tasks "jA" (WPC.check1 kA "uA") }

/-- Trace state after the first cancellation re-check passed. -/
def w6 : Sys := { w5 with tasks := taskUpd w5.tasks "jA" (WPC.acqUser kA "uA") }

/-- Trace state after the worker acquired a user slot. -/
def w7 : Sys :=
  acquire_user_slot { w6 with tasks := taskUpd w6.tasks "jA" (WPC.check2 kA "uA") } "uA"

/-- Trace state after the second cancellation re-check passed. -/
def w8 : Sys := { w7 with tasks := taskUpd w7.tasks "jA" (WPC.acqSem kA "uA") }

/-- Trace state after the worker acquired the global semaphore. -/
def w9 : Sys := { w8 with semAvail := w8.semAvail - 1,
                          tasks := taskUpd w8.tasks "jA" (WPC.check3 kA "uA") }

/-- Trace state after the third cancellation re-check passed. -/
def w10 : Sys := { w9 with activeWorkers := w9.activeWorkers + 1,
                           tasks := taskUpd w9.tasks "jA" (WPC.setRunning kA "uA") }

/-- Trace state after run_job marked jA RUNNING and entered its tile loop. -/
def w11 : Sys := { w10 with jobs := (update_job_state w10.jobs "jA" JobState.RUNNING).2,
                            tasks := taskUpd w10.tasks "jA" (WPC.loop kA "uA" true 0 1) }

/-- The record of jA while RUNNING. -/
def jrARun : JobRec := { jrA with state := JobState.RUNNING }

/-- Trace state after the single tile of jA was processed. -/
def w12 : Sys := { w11 with
  jobs := (set_job_progress w11.jobs "jA" ((((0 : Nat) : ℚ) + 1) / (((1 : Nat)) : ℚ))
    (if true then (0 : Nat) + 1 else 0) (if true then (1 : Nat) else 0)).2,
  tasks := taskUpd w11.tasks "jA" (WPC.loop kA "uA" true ((0 : Nat) + 1) 1) }

/-- Trace state after the tile loop of jA finished. -/
def w13 : Sys := { w12 with tasks := taskUpd w12.tasks "jA" (WPC.finish kA "uA") }

/-- Trace state after run_job wrote the manifest of jA. -/
def w14 : Sys := { w13 with disk := manifestPath "jA" :: w13.disk,
                            tasks := taskUpd w13.tasks "jA" (WPC.setPath kA "uA") }

/-- Trace state after run_job stored the result path of jA. -/
def w15 : Sys := { w14 with jobs := (set_job_result_path w14.jobs "jA" (manifestPath "jA")).2,
                            tasks := taskUpd w14.tasks "jA" (WPC.setSucceeded kA "uA") }

/-- Trace state after jA reached SUCCEEDED and its worker unwound. -/
def w16 : Sys := release_user_slot
  { w15 with jobs := (update_job_state w15.jobs "jA" JobState.SUCCEEDED).2,
             activeWorkers := w15.activeWorkers - 1,
             semAvail := w15.semAvail + 1,
             branchOwner := aremove w15.branchOwner kA,
             tasks := aremove w15.tasks "jA",
             scheduled := sremove w15.scheduled "jA" } "uA"

/-- The record of jA after its successful run. -/
def jrASuc : JobRec :=
  { jrA with state := JobState.SUCCEEDED,
             progress := (((0 : Nat) : ℚ) + 1) / (((1 : Nat)) : ℚ),
             tiles_processed := if true then (0 : Nat) + 1 else 0,
             tiles_total := if true then (1 : Nat) else 0,
             result_path := some (manifestPath "jA") }

/-- Failure-branch trace state: an error was raised inside the tile loop of jA
and error.json was written. -/
def v12 : Sys := { w11 with disk := errorPath "jA" :: w11.disk,
                            tasks := taskUpd w11.tasks "jA" (WPC.failSetPath kA "uA") }

/-- Failure-branch trace state after the error artifact path was stored. -/
def v13 : Sys := { v12 with jobs := (set_job_result_path v12.jobs "jA" (errorPath "jA")).2,
                            tasks := taskUpd v12.tasks "jA" (WPC.failSetState kA "uA") }

/-- Failure-branch trace state after jA reached FAILED and its worker unwound. -/
def v14 : Sys := release_user_slot
  { v13 with jobs := (update_job_state v13.jobs "jA" JobState.FAILED).2,
             activeWorkers := v13.activeWorkers - 1,
             semAvail := v13.semAvail + 1,
             branchOwner := aremove v13.branchOwner kA,
             tasks := aremove v13.tasks "jA",
             scheduled := sremove v13.scheduled "jA" } "uA"

/-- The record of jA after its failed run. -/
def jrAFail : JobRec :=
  { jrA with state := JobState.FAILED, result_path := some (errorPath "jA") }

/-! Association-list lemmas. -/

theorem alookup_aset {α β : Type} [DecidableEq α] (l : List (α × β)) (a : α) (b : β)
    (a' : α) : alookup (aset l a b) a' = if a = a' then some b else alookup l a' := by
  induction l with
  | nil => simp [aset, alookup]
  | cons hd tl ih =>
    obtain ⟨a1, b1⟩ := hd
    by_cases h1 : a1 = a
    · subst h1
      by_cases h2 : a1 = a' <;> simp [aset, alookup, h2]
    · by_cases h2 : a1 = a'
      · subst h2
        have hne : ¬ a = a1 := fun e => h1 e.symm
        simp [aset, alookup, h1, hne]
      · simp [aset, alookup, h1, h2, ih]

theorem alookup_aremove {α β : Type} [DecidableEq α] (l : List (α × β)) (a a' : α) :
    alookup (aremove l a) a' = if a = a' then none else alookup l a' := by
  induction l with
  | nil => simp [aremove, alookup]
  | cons hd tl ih =>
    obtain ⟨a1, b1⟩ := hd
    by_cases h1 : a1 = a
    · subst h1
      by_cases h2 : a1 = a'
      · subst h2; simp [aremove, alookup, List.filter] at ih ⊢; simp [ih]
      · simp [aremove, alookup, List.filter] at ih ⊢
        simpa [h2] using ih
    · by_cases h2 : a1 = a'
      · subst h2
        have hne : ¬ a = a1 := fun e => h1 e.symm
        simp [aremove, alookup, List.filter, h1, hne]
      · simp [aremove, alookup, List.filter, h1, h2] at ih ⊢
        exact ih

theorem mem_aremove_iff {α β : Type} [DecidableEq α] (l : List (α × β)) (a : α)
    (p : α × β) : p ∈ aremove l a ↔ p ∈ l ∧ p.1 ≠ a := by
  simp [aremove, List.mem_filter]

theorem mem_sremove_iff (l : List String) (a v : String) :
    v ∈ sremove l a ↔ v ∈ l ∧ v ≠ a := by
  simp [sremove, List.mem_filter]

theorem mem_taskUpd_iff (tasks : List (String × WPC)) (id : String) (pc : WPC)
    (q : String × WPC) :
    q ∈ taskUpd tasks id pc ↔ q = (id, pc) ∨ (q ∈ tasks ∧ q.1 ≠ id) := by
  simp [taskUpd, mem_aremove_iff]

theorem alookup_mem {α β : Type} [DecidableEq α] {l : List (α × β)} {a : α} {b : β}
    (h : alookup l a = some b) : (a, b) ∈ l := by
  induction l with
  | nil => simp [alookup] at h
  | cons hd tl ih =>
    obtain ⟨a1, b1⟩ := hd
    by_cases h1 : a1 = a
    · subst h1
      simp [alookup] at h
      simp [h]
    · simp [alookup, h1] at h
      exact List.mem_cons_of_mem _ (ih h)

theorem mem_keys_of_mem {α β : Type} {l : List (α × β)} {p : α × β} (h : p ∈ l) :
    p.1 ∈ l.map Prod.fst := List.mem_map_of_mem Prod.fst h

theorem alookup_isSome_of_mem {α β : Type} [DecidableEq α] {l : List (α × β)}
    {a : α} {b : β} (h : (a, b) ∈ l) : ∃ b', alookup l a = some b' := by
  induction l with
  | nil => simp at h
  | cons hd tl ih =>
    obtain ⟨a1, b1⟩ := hd
    by_cases h1 : a1 = a
    · exact ⟨b1, by simp [alookup, h1]⟩
    · rcases List.mem_cons.mp h with h2 | h2
      · exact absurd (congrArg Prod.fst h2).symm h1
      · simpa [alookup, h1] using ih h2

theorem mem_unique_of_keys_nodup {α β : Type} {l : List (α × β)}
    (hnd : (l.map Prod.fst).Nodup) {a : α} {b1 b2 : β}
    (h1 : (a, b1) ∈ l) (h2 : (a, b2) ∈ l) : b1 = b2 := by
  induction l with
  | nil => simp at h1
  | cons hd tl ih =>
    obtain ⟨ah, bh⟩ := hd
    simp only [List.map_cons, List.nodup_cons] at hnd
    rcases List.mem_cons.mp h1 with e1 | e1 <;> rcases List.mem_cons.mp h2 with e2 | e2
    · cases e1
      injection e2 with ha hb
      exact hb.symm
    · cases e1
      exact absurd (mem_keys_of_mem e2) hnd.1
    · cases e2
      exact absurd (mem_keys_of_mem e1) hnd.1
    · exact ih hnd.2 e1 e2

theorem alookup_of_mem_nodup {α β : Type} [DecidableEq α] {l : List (α × β)}
    (hnd : (l.map Prod.fst).Nodup) {a : α} {b : β} (h : (a, b) ∈ l) :
    alookup l a = some b := by
  obtain ⟨b', hb'⟩ := alookup_isSome_of_mem h
  rw [hb', mem_unique_of_keys_nodup hnd h (alookup_mem hb')]

/-! Ceiling-division lemmas for the tile grid. -/

theorem cdiv_zero (s : Nat) : cdiv 0 s = 0 := by
  cases s with
  | zero => rfl
  | succ t => exact Nat.div_eq_of_lt (by omega)

theorem cdiv_succ (n s : Nat) (hs : 0 < s) (hn : 0 < n) :
    cdiv n s = cdiv (n - s) s + 1 := by
  unfold cdiv
  rcases le_or_lt n s with hle | hlt
  · have h0 : n - s = 0 := by omega
    rw [h0]
    have h1 : n + s - 1 = (n - 1) + s := by omega
    rw [h1, Nat.add_div_right _ hs, Nat.div_eq_of_lt (by omega), Nat.div_eq_of_lt (by omega)]
  · have h1 : n + s - 1 = (n - s + s - 1) + s := by omega
    rw [h1, Nat.add_div_right _ hs]

theorem lt_cdiv_iff (i n s : Nat) (hs : 0 < s) : i < cdiv n s ↔ i * s < n := by
  rcases Nat.eq_zero_or_pos n with h0 | hpos
  · subst h0; rw [cdiv_zero]; omega
  · have he : cdiv n s = (n - 1) / s + 1 := by
      unfold cdiv
      have h1 : n + s - 1 = (n - 1) + s := by omega
      rw [h1, Nat.add_div_right _ hs]
    rw [he]
    constructor
    · intro h
      have h2 : i ≤ (n - 1) / s := by omega
      have h3 := (Nat.le_div_iff_mul_le hs).mp h2
      omega
    · intro h
      have h2 : i * s ≤ n - 1 := by omega
      have := (Nat.le_div_iff_mul_le hs).mpr h2
      omega

theorem cdiv_pos (n s : Nat) (hs : 0 < s) (hn : 0 < n) : 0 < cdiv n s := by
  rw [cdiv_succ n s hs hn]; omega

/-! Equivalence of iter_tiles with the row-major specification enumeration. -/

theorem tileRow_eq (ts step imgW y h : Nat) (hstep : 0 < step) :
    ∀ n x, imgW - x ≤ n →
      tileRow ts step imgW y h hstep x =
        (List.range' x (cdiv (imgW - x) step) step).map
          (fun xx => (xx, y, min ts (imgW - xx), h)) := by
  intro n
  induction n with
  | zero =>
    intro x hx
    rw [tileRow, dif_neg (by omega)]
    have h0 : imgW - x = 0 := by omega
    simp [h0, cdiv_zero]
  | succ n ih =>
    intro x hx
    by_cases hlt : x < imgW
    · rw [tileRow, dif_pos hlt]
      have e2 : cdiv (imgW - x) step = cdiv (imgW - x - step) step + 1 :=
        cdiv_succ _ _ hstep (by omega)
      have e3 : imgW - (x + step) = imgW - x - step := by omega
      rw [ih (x + step) (by omega), e2, List.range'_succ, List.map_cons, e3]
    · rw [tileRow, dif_neg hlt]
      have h0 : imgW - x = 0 := by omega
      simp [h0, cdiv_zero]

theorem iterTilesAux_eq (ts step imgW imgH : Nat) (hstep : 0 < step) :
    ∀ n y, imgH - y ≤ n →
      iterTilesAux ts step imgW imgH hstep y =
        (List.range' y (cdiv (imgH - y) step) step).flatMap
          (fun yy => (List.range' 0 (cdiv imgW step) step).map
            (fun x => (x, yy, min ts (imgW - x), min ts (imgH - yy)))) := by
  intro n
  induction n with
  | zero =>
    intro y hy
    rw [iterTilesAux, dif_neg (by omega)]
    have h0 : imgH - y = 0 := by omega
    simp [h0, cdiv_zero]
  | succ n ih =>
    intro y hy
    by_cases hlt : y < imgH
    · rw [iterTilesAux, dif_pos hlt]
      have e2 : cdiv (imgH - y) step = cdiv (imgH - y - step) step + 1 :=
        cdiv_succ _ _ hstep (by omega)
      have e3 : imgH - (y + step) = imgH - y - step := by omega
      rw [ih (y + step) (by omega), e2, List.range'_succ, List.flatMap_cons, e3]
      rw [tileRow_eq ts step imgW y (min ts (imgH - y)) hstep (imgW - 0) 0 (by omega)]
      simp
    · rw [iterTilesAux, dif_neg hlt]
      have h0 : imgH - y = 0 := by omega
      simp [h0, cdiv_zero]

theorem iterTilesWith_eq_rowMajor (ts ov imgW imgH : Nat) (hov : ov < ts) :
    iterTilesWith ts ov imgW imgH hov = rowMajorTiles ts ov imgW imgH := by
  unfold iterTilesWith rowMajorTiles
  rw [iterTilesAux_eq ts (ts - ov) imgW imgH (by omega) (imgH - 0) 0 (by omega)]
  simp

theorem mem_range'_grid (b s : Nat) (hs : 0 < s) (x : Nat) :
    x ∈ List.range' 0 (cdiv b s) s ↔ ∃ i, x = i * s ∧ x < b := by
  rw [List.mem_range']
  constructor
  · rintro ⟨i, hi, rfl⟩
    refine ⟨i, by ring, ?_⟩
    have h1 := (lt_cdiv_iff i b s hs).mp hi
    have h2 : s * i = i * s := Nat.mul_comm s i
    omega
  · rintro ⟨i, rfl, hlt⟩
    exact ⟨i, (lt_cdiv_iff i b s hs).mpr (by omega), by ring⟩

theorem rowMajorTiles_length_pos (ts ov imgW imgH : Nat) (hov : ov < ts)
    (hw : 0 < imgW) (hh : 0 < imgH) : 0 < (rowMajorTiles ts ov imgW imgH).length := by
  have hs : 0 < ts - ov := by omega
  have hy : (0 : Nat) ∈ List.range' 0 (cdiv imgH (ts - ov)) (ts - ov) :=
    (mem_range'_grid imgH (ts - ov) hs 0).mpr ⟨0, by ring, hh⟩
  have hx : (0 : Nat) ∈ List.range' 0 (cdiv imgW (ts - ov)) (ts - ov) :=
    (mem_range'_grid imgW (ts - ov) hs 0).mpr ⟨0, by ring, hw⟩
  have hmem : (0, 0, min ts (imgW - 0), min ts (imgH - 0)) ∈ rowMajorTiles ts ov imgW imgH := by
    unfold rowMajorTiles
    exact List.mem_flatMap.mpr ⟨0, hy, List.mem_map.mpr ⟨0, hx, rfl⟩⟩
  exact List.length_pos.mpr (List.ne_nil_of_mem hmem)

theorem iter_tiles_length_pos (imgW imgH : Nat) (hw : 0 < imgW) (hh : 0 < imgH) :
    0 < (iter_tiles imgW imgH).length := by
  unfold iter_tiles
  rw [iterTilesWith_eq_rowMajor]
  exact rowMajorTiles_length_pos TILE_SIZE TILE_OVERLAP imgW imgH (by decide) hw hh

theorem tile_total_pos (avail : Bool) (env : String → Nat × Nat) (j : JobRec)
    (henv : ∀ f, 0 < (env f).1 ∧ 0 < (env f).2) : 0 < tile_total avail env j := by
  unfold tile_total
  split_ifs with h1 h2 h3
  · exact iter_tiles_length_pos _ _ (henv j.file_id).1 (henv j.file_id).2
  · exact iter_tiles_length_pos _ _ (henv j.file_id).1 (henv j.file_id).2
  · omega
  · omega

/-- C4: for every image size, with the overlap below the tile size, the source
generator iter_tiles produces exactly the row-major enumeration the
specification describes: rows at multiples of the step below the height,
columns at multiples of the step below the width, each tile clipped to
min(TILE_SIZE, remaining extent), and the tile count is the length of that
enumeration. -/
theorem C4_tile_enumeration (ts ov imgW imgH : Nat) (hov : ov < ts) :
    iterTilesWith ts ov imgW imgH hov = rowMajorTiles ts ov imgW imgH
    ∧ (iterTilesWith ts ov imgW imgH hov).length = (rowMajorTiles ts ov imgW imgH).length
    ∧ (∀ x, x ∈ List.range' 0 (cdiv imgW (ts - ov)) (ts - ov) ↔
        ∃ i, x = i * (ts - ov) ∧ x < imgW)
    ∧ (∀ y, y ∈ List.range' 0 (cdiv imgH (ts - ov)) (ts - ov) ↔
        ∃ i, y = i * (ts - ov) ∧ y < imgH) :=
  ⟨iterTilesWith_eq_rowMajor ts ov imgW imgH hov,
   by rw [iterTilesWith_eq_rowMajor],
   fun x => mem_range'_grid imgW (ts - ov) (by omega) x,
   fun y => mem_range'_grid imgH (ts - ov) (by omega) y⟩

/-- C4 witness: the overlap of the deployed settings is below the tile size,
and on the 2048 by 1024 scenario image the generator agrees with the row-major
enumeration. -/
theorem C4_tile_enumeration_witness :
    64 < 1024 ∧
      iterTilesWith 1024 64 2048 1024 (by decide) = rowMajorTiles 1024 64 2048 1024 :=
  ⟨by decide, (C4_tile_enumeration 1024 64 2048 1024 (by decide)).1⟩

/-- C3 counterexample: on a 2048 by 1024 image with TILE_SIZE 1024 and
TILE_OVERLAP 64 the source generator does NOT stop at 4 tiles with the four
claimed coordinates; a third column starts at x = 1920, which is still below
the width 2048. -/
theorem C3_counterexample :
    ¬ ((iter_tiles 2048 1024).length = 4 ∧
       (iter_tiles 2048 1024).map (fun t => (t.1, t.2.1)) =
         [(0, 0), (960, 0), (0, 960), (960, 960)]) := by
  unfold iter_tiles
  rw [iterTilesWith_eq_rowMajor]
  decide

/-- C3 amended: with TILE_SIZE 1024 and TILE_OVERLAP 64 the tile enumeration
over a 2048 by 1024 source yields exactly 6 tiles, at coordinates
(0,0), (960,0), (1920,0), (0,960), (960,960), (1920,960). -/
theorem C3_amended :
    (iter_tiles 2048 1024).length = 6 ∧
    (iter_tiles 2048 1024).map (fun t => (t.1, t.2.1)) =
      [(0, 0), (960, 0), (1920, 0), (0, 960), (960, 960), (1920, 960)] := by
  unfold iter_tiles
  rw [iterTilesWith_eq_rowMajor]
  decide

/-! Characterizations of the JobStore operations. -/

theorem update_job_state_fst (jobs : JobStore) (id : String) (st : JobState) :
    (update_job_state jobs id st).1 =
      (alookup jobs id).map (fun j => { j with state := st }) := by
  unfold update_job_state
  cases alookup jobs id <;> simp

theorem update_job_state_lookup (jobs : JobStore) (id : String) (st : JobState)
    (id' : String) :
    alookup (update_job_state jobs id st).2 id' =
      if id = id' then (alookup jobs id').map (fun j => { j with state := st })
      else alookup jobs id' := by
  by_cases he : id = id'
  · subst he
    cases h : alookup jobs id with
    | none => simp [update_job_state, h]
    | some j => simp [update_job_state, h, alookup_aset]
  · cases h : alookup jobs id with
    | none => simp [update_job_state, h, he]
    | some j => simp [update_job_state, h, alookup_aset, he]

theorem set_job_result_path_lookup (jobs : JobStore) (id : String) (path : String)
    (id' : String) :
    alookup (set_job_result_path jobs id path).2 id' =
      if id = id' then (alookup jobs id').map (fun j => { j with result_path := some path })
      else alookup jobs id' := by
  by_cases he : id = id'
  · subst he
    cases h : alookup jobs id with
    | none => simp [set_job_result_path, h]
    | some j => simp [set_job_result_path, h, alookup_aset]
  · cases h : alookup jobs id with
    | none => simp [set_job_result_path, h, he]
    | some j => simp [set_job_result_path, h, alookup_aset, he]

theorem set_job_progress_lookup (jobs : JobStore) (id : String) (prog : ℚ)
    (tp tt : Nat) (id' : String) :
    alookup (set_job_progress jobs id prog tp tt).2 id' =
      if id = id' then
        (alookup jobs id').map (fun j =>
          { j with progress := prog, tiles_processed := tp,
                   tiles_total := if 0 < tt then tt else j.tiles_total })
      else alookup jobs id' := by
  by_cases he : id = id'
  · subst he
    cases h : alookup jobs id with
    | none => simp [set_job_progress, h]
    | some j =>
      by_cases htt : 0 < tt <;> simp [set_job_progress, h, alookup_aset, htt]
  · cases h : alookup jobs id with
    | none => simp [set_job_progress, h, he]
    | some j =>
      by_cases htt : 0 < tt <;> simp [set_job_progress, h, alookup_aset, he, htt]

theorem reset_for_retry_lookup (jobs : JobStore) (id : String) (id' : String) :
    alookup (reset_for_retry jobs id).2 id' =
      if id = id' then
        (alookup jobs id').map (fun j =>
          if j.state = JobState.RUNNING then j
          else { j with state := JobState.PENDING, progress := 0, result_path := none })
      else alookup jobs id' := by
  by_cases he : id = id'
  · subst he
    cases h : alookup jobs id with
    | none => simp [reset_for_retry, h]
    | some j =>
      by_cases hr : j.state = JobState.RUNNING <;>
        simp [reset_for_retry, h, alookup_aset, hr]
  · cases h : alookup jobs id with
    | none => simp [reset_for_retry, h, he]
    | some j =>
      by_cases hr : j.state = JobState.RUNNING <;>
        simp [reset_for_retry, h, alookup_aset, he, hr]

theorem cancel_job_if_pending_lookup (jobs : JobStore) (id : String) (id' : String) :
    alookup (cancel_job_if_pending jobs id).2 id' =
      if id = id' then
        (alookup jobs id').map (fun j =>
          if j.state = JobState.PENDING then { j with state := JobState.CANCELED } else j)
      else alookup jobs id' := by
  by_cases he : id = id'
  · subst he
    cases h : alookup jobs id with
    | none => simp [cancel_job_if_pending, h]
    | some j =>
      by_cases hp : j.state = JobState.PENDING <;>
        simp [cancel_job_if_pending, h, alookup_aset, hp]
  · cases h : alookup jobs id with
    | none => simp [cancel_job_if_pending, h, he]
    | some j =>
      by_cases hp : j.state = JobState.PENDING <;>
        simp [cancel_job_if_pending, h, alookup_aset, he, hp]

theorem mem_wait_parts (b1 b2 : Bool) (P : Prop) [Decidable P] :
    ("BRANCH" ∈ (if b1 = true then ["BRANCH"] else ([] : List String))
        ++ (if b2 = true then ["USER_SLOT"] else [])
        ++ (if P then ["WORKER"] else []) ↔ b1 = true)
    ∧ ("USER_SLOT" ∈ (if b1 = true then ["BRANCH"] else ([] : List String))
        ++ (if b2 = true then ["USER_SLOT"] else [])
        ++ (if P then ["WORKER"] else []) ↔ b2 = true)
    ∧ ("WORKER" ∈ (if b1 = true then ["BRANCH"] else ([] : List String))
        ++ (if b2 = true then ["USER_SLOT"] else [])
        ++ (if P then ["WORKER"] else []) ↔ P) := by
  cases b1 <;> cases b2 <;> by_cases hP : P <;> simp [hP]

theorem mem_waiting_for_branch (jobs : JobStore) (ids : List String) (aw : Nat)
    (job : JobRec) :
    "BRANCH" ∈ waiting_for_of jobs ids aw job ↔
      ((jobs.map Prod.snd).any (fun j =>
        j.workflow_id == job.workflow_id && effective_branch j == effective_branch job
          && j.job_id != job.job_id && j.state == JobState.RUNNING)) = true := by
  unfold waiting_for_of
  exact (mem_wait_parts _ _ _).1

theorem mem_waiting_for_user (jobs : JobStore) (ids : List String) (aw : Nat)
    (job : JobRec) :
    "USER_SLOT" ∈ waiting_for_of jobs ids aw job ↔
      (!ids.contains job.user_id && decide (MAX_ACTIVE_USERS ≤ ids.length)) = true := by
  unfold waiting_for_of
  exact (mem_wait_parts _ _ _).2.1

theorem mem_waiting_for_worker (jobs : JobStore) (ids : List String) (aw : Nat)
    (job : JobRec) :
    "WORKER" ∈ waiting_for_of jobs ids aw job ↔ MAX_WORKERS ≤ aw := by
  unfold waiting_for_of
  exact (mem_wait_parts _ _ _).2.2

/-- C10: the store-level update_job_state performs no state-machine
validation: for every store, job id and target state (forbidden transitions
included) it returns the record with exactly the state field replaced, the
updated store differs from the old one at that job id only, and it returns
none exactly when the id is absent, in which case the store is unchanged.
The job-lifecycle FSM lives only in the callers. -/
theorem C10_update_job_state_no_validation (jobs : JobStore) (job_id : String)
    (st : JobState) (id' : String) :
    (update_job_state jobs job_id st).1 =
        (alookup jobs job_id).map (fun j => { j with state := st })
    ∧ alookup (update_job_state jobs job_id st).2 id' =
        (if job_id = id' then (alookup jobs id').map (fun j => { j with state := st })
         else alookup jobs id')
    ∧ ((update_job_state jobs job_id st).1 = none ↔ alookup jobs job_id = none)
    ∧ (if alookup jobs job_id = none then (update_job_state jobs job_id st).2 = jobs
       else True) :=
  ⟨update_job_state_fst jobs job_id st,
   update_job_state_lookup jobs job_id st id',
   by rw [update_job_state_fst]; cases alookup jobs job_id <;> simp,
   by cases h : alookup jobs job_id <;> simp [update_job_state, h]⟩

/-- C5: for an existing job owned by the caller, the retry operation rejects a
RUNNING job with a 409 InvalidState error leaving the store untouched, and for
every other current state resets it to PENDING with progress 0 and no result
path, preserving the tile counters; the store-level reset_for_retry behaves
accordingly (for RUNNING it returns the record unchanged rather than
raising; the HTTP 409 comes from the retry endpoint). -/
theorem C5_reset_for_retry (jobs : JobStore) (job_id x_user_id : String)
    (jr : JobRec) (h : alookup jobs job_id = some jr)
    (hu : jr.user_id = x_user_id) :
    retry_job jobs job_id x_user_id =
      (if jr.state = JobState.RUNNING then
        Except.error (409, "Cannot retry a RUNNING job")
       else Except.ok (aset jobs job_id
        { jr with state := JobState.PENDING, progress := 0, result_path := none }))
    ∧ reset_for_retry jobs job_id =
      (if jr.state = JobState.RUNNING then (some jr, jobs)
       else (some { jr with state := JobState.PENDING, progress := 0, result_path := none },
             aset jobs job_id
               { jr with state := JobState.PENDING, progress := 0, result_path := none })) := by
  have hne : ¬ (jr.user_id ≠ x_user_id) := by simp [hu]
  have h2 : reset_for_retry jobs job_id =
      (if jr.state = JobState.RUNNING then (some jr, jobs)
       else (some { jr with state := JobState.PENDING, progress := 0, result_path := none },
             aset jobs job_id
               { jr with state := JobState.PENDING, progress := 0, result_path := none })) := by
    simp only [reset_for_retry, h]
  refine ⟨?_, h2⟩
  simp only [retry_job, h]
  rw [if_neg hne, h2]
  by_cases hr : jr.state = JobState.RUNNING <;> simp [hr]

/-- C5 witness: on a store holding a RUNNING job, retry answers 409 and the
store-level reset leaves the record unchanged. -/
theorem C5_reset_for_retry_witness :
    alookup jobsRunning "j1" = some jrRunning ∧ jrRunning.user_id = "u1" ∧
    retry_job jobsRunning "j1" "u1" = Except.error (409, "Cannot retry a RUNNING job") ∧
    reset_for_retry jobsRunning "j1" = (some jrRunning, jobsRunning) := by
  have h := C5_reset_for_retry jobsRunning "j1" "u1" jrRunning rfl rfl
  refine ⟨rfl, rfl, ?_, ?_⟩
  · simpa using h.1
  · simpa using h.2

/-- C2: for every existing workflow, get_workflow_info aggregates exactly as
the specification derives: state FAILED if some member is FAILED, else
SUCCEEDED if there are members and all are SUCCEEDED, else RUNNING if some
member is RUNNING, else PENDING (so PENDING for no members and for
only-canceled members), and percent_complete is the arithmetic mean of member
progress, 0 for no members. -/
theorem C2_workflow_aggregation (workflows : List (String × String × String))
    (jobs : JobStore) (wid owner name : String)
    (h : alookup workflows wid = some (owner, name)) :
    get_workflow_info workflows jobs wid =
      some ⟨wid, owner,
        workflowStateOfJobs ((jobs.map Prod.snd).filter (fun j => j.workflow_id == wid)),
        meanProgress ((jobs.map Prod.snd).filter (fun j => j.workflow_id == wid))⟩ := by
  simp only [get_workflow_info, h]
  by_cases he : ((jobs.map Prod.snd).filter (fun j => j.workflow_id == wid)).isEmpty = true
  · rw [List.isEmpty_iff] at he
    rw [he]
    simp [workflowStateOfJobs, meanProgress]
  · rw [Bool.not_eq_true] at he
    unfold workflowStateOfJobs meanProgress
    rw [he]
    simp only [Bool.not_false, Bool.true_and]
    simp

/-- C2 witness: a workflow with one SUCCEEDED and one CANCELED member is
reported PENDING with percent one half. -/
theorem C2_workflow_aggregation_witness :
    alookup wfsW "w1" = some ("u1", "wf") ∧
    get_workflow_info wfsW jobsW "w1" =
      some ⟨"w1", "u1", WorkflowState.PENDING, 1/2⟩ := by
  refine ⟨rfl, ?_⟩
  rw [C2_workflow_aggregation wfsW jobsW "w1" "u1" "wf" rfl]
  norm_num [jobsW, jrSucceededW, jrCanceledW, workflowStateOfJobs, meanProgress]
  all_goals decide

/-- C8: for every PENDING job, queue_status reports BRANCH exactly when some
other job with the same workflow and effective branch is RUNNING, USER_SLOT
exactly when the owner is not an active user while the active-user set is
full, and WORKER exactly when the running-worker counter has reached
MAX_WORKERS. -/
theorem C8_queue_status (jobs : JobStore) (ids : List String) (aw : Nat)
    (job_id : String) (jr : JobRec) (h : alookup jobs job_id = some jr)
    (hp : jr.state = JobState.PENDING) :
    ∃ qs, get_queue_status_for_job jobs ids aw job_id = some qs ∧
      ("BRANCH" ∈ qs.waiting_for ↔ ∃ j ∈ jobs.map Prod.snd,
          j.workflow_id = jr.workflow_id ∧ effective_branch j = effective_branch jr ∧
          j.job_id ≠ jr.job_id ∧ j.state = JobState.RUNNING)
      ∧ ("USER_SLOT" ∈ qs.waiting_for ↔
          jr.user_id ∉ ids ∧ MAX_ACTIVE_USERS ≤ ids.length)
      ∧ ("WORKER" ∈ qs.waiting_for ↔ MAX_WORKERS ≤ aw) := by
  have hq : (jr.state == JobState.PENDING) = true := by simp [hp]
  simp only [get_queue_status_for_job, h]
  rw [hq, if_pos rfl]
  refine ⟨_, rfl, ?_, ?_, ?_⟩
  · rw [mem_waiting_for_branch]
    rw [List.any_eq_true]
    simp [bne_iff_ne, and_assoc]
  · rw [mem_waiting_for_user]
    simp
  · rw [mem_waiting_for_worker]

/-- C8 witness: a PENDING job blocked on all three gates at once reports
BRANCH, USER_SLOT and WORKER. -/
theorem C8_queue_status_witness :
    alookup jobsQ "p1" = some jrPendQ ∧ jrPendQ.state = JobState.PENDING ∧
    (∃ qs, get_queue_status_for_job jobsQ idsQ 4 "p1" = some qs ∧
      ("BRANCH" ∈ qs.waiting_for ↔ ∃ j ∈ jobsQ.map Prod.snd,
          j.workflow_id = jrPendQ.workflow_id ∧
          effective_branch j = effective_branch jrPendQ ∧
          j.job_id ≠ jrPendQ.job_id ∧ j.state = JobState.RUNNING)
      ∧ ("USER_SLOT" ∈ qs.waiting_for ↔
          jrPendQ.user_id ∉ idsQ ∧ MAX_ACTIVE_USERS ≤ idsQ.length)
      ∧ ("WORKER" ∈ qs.waiting_for ↔ MAX_WORKERS ≤ 4)) :=
  ⟨rfl, rfl, C8_queue_status jobsQ idsQ 4 "p1" jrPendQ rfl rfl⟩

/-! Helper lemmas for the operational model. -/

theorem release_user_slot_jobs (s : Sys) (u : String) :
    (release_user_slot s u).jobs = s.jobs := by
  unfold release_user_slot
  cases alookup s.activeUserCounts u with
  | none => rfl
  | some c => by_cases hc : c ≤ 1 <;> simp [hc]

theorem release_user_slot_disk (s : Sys) (u : String) :
    (release_user_slot s u).disk = s.disk := by
  unfold release_user_slot
  cases alookup s.activeUserCounts u with
  | none => rfl
  | some c => by_cases hc : c ≤ 1 <;> simp [hc]

theorem release_user_slot_scheduled (s : Sys) (u : String) :
    (release_user_slot s u).scheduled = s.scheduled := by
  unfold release_user_slot
  cases alookup s.activeUserCounts u with
  | none => rfl
  | some c => by_cases hc : c ≤ 1 <;> simp [hc]

theorem release_user_slot_branchOwner (s : Sys) (u : String) :
    (release_user_slot s u).branchOwner = s.branchOwner := by
  unfold release_user_slot
  cases alookup s.activeUserCounts u with
  | none => rfl
  | some c => by_cases hc : c ≤ 1 <;> simp [hc]

theorem release_user_slot_tasks (s : Sys) (u : String) :
    (release_user_slot s u).tasks = s.tasks := by
  unfold release_user_slot
  cases alookup s.activeUserCounts u with
  | none => rfl
  | some c => by_cases hc : c ≤ 1 <;> simp [hc]

theorem acquire_user_slot_jobs (s : Sys) (u : String) :
    (acquire_user_slot s u).jobs = s.jobs := rfl

theorem acquire_user_slot_disk (s : Sys) (u : String) :
    (acquire_user_slot s u).disk = s.disk := rfl

theorem acquire_user_slot_scheduled (s : Sys) (u : String) :
    (acquire_user_slot s u).scheduled = s.scheduled := rfl

theorem acquire_user_slot_branchOwner (s : Sys) (u : String) :
    (acquire_user_slot s u).branchOwner = s.branchOwner := rfl

theorem acquire_user_slot_tasks (s : Sys) (u : String) :
    (acquire_user_slot s u).tasks = s.tasks := rfl

theorem nodup_keys_aremove (tasks : List (String × WPC)) (id : String)
    (h : (tasks.map Prod.fst).Nodup) : ((aremove tasks id).map Prod.fst).Nodup :=
  List.Nodup.sublist (List.Sublist.map Prod.fst (List.filter_sublist tasks)) h

theorem nodup_keys_taskUpd (tasks : List (String × WPC)) (id : String) (pc : WPC)
    (h : (tasks.map Prod.fst).Nodup) : ((taskUpd tasks id pc).map Prod.fst).Nodup := by
  unfold taskUpd
  simp only [List.map_cons, List.nodup_cons]
  refine ⟨?_, nodup_keys_aremove tasks id h⟩
  intro hmem
  obtain ⟨p, hp, he⟩ := List.mem_map.mp hmem
  exact ((mem_aremove_iff tasks id p).mp hp).2 he

theorem alookup_cons {α β : Type} [DecidableEq α] (a1 : α) (b1 : β) (t : List (α × β))
    (a : α) : alookup ((a1, b1) :: t) a = if a1 = a then some b1 else alookup t a := rfl

theorem effKey_set_state (j : JobRec) (st : JobState) :
    effKey { j with state := st } = effKey j := rfl

theorem effKey_set_path (j : JobRec) (p : Option String) :
    effKey { j with result_path := p } = effKey j := rfl

theorem tile_total_set_state (avail : Bool) (env : String → Nat × Nat) (j : JobRec)
    (st : JobState) : tile_total avail env { j with state := st } = tile_total avail env j := rfl

theorem cancelled_or_missing_false {jobs : JobStore} {id : String}
    (h : cancelled_or_missing jobs id = false) :
    ∃ jr, alookup jobs id = some jr ∧ jr.state ≠ JobState.CANCELED := by
  unfold cancelled_or_missing at h
  cases hl : alookup jobs id with
  | none => rw [hl] at h; cases h
  | some jr =>
    rw [hl] at h
    exact ⟨jr, rfl, by simpa using h⟩

/-- The invariant holds in the fresh process state. -/
theorem inv_init (env : String → Nat × Nat) (avail : Bool) : Inv env avail Sys.init := by
  constructor <;> simp [Sys.init, alookup]

/-- The invariant ignores the user-gate bookkeeping, so acquiring a user slot
preserves it. -/
theorem inv_acquire_user (env : String → Nat × Nat) (avail : Bool) (s : Sys) (u : String)
    (h : Inv env avail s) : Inv env avail (acquire_user_slot s u) :=
  ⟨h.tasksNodup, h.taskSched, h.held, h.keyJob, h.execRun, h.run, h.loopInv,
   h.finishPc, h.setPathPc, h.sucPc, h.failPc1, h.failPc2, h.suc, h.fai⟩

/-- Releasing a user slot also preserves the invariant. -/
theorem inv_release_user (env : String → Nat × Nat) (avail : Bool) (s : Sys) (u : String)
    (h : Inv env avail s) : Inv env avail (release_user_slot s u) := by
  unfold release_user_slot
  cases alookup s.activeUserCounts u with
  | none => exact h
  | some c =>
    dsimp only
    by_cases hc : c ≤ 1
    · rw [if_pos hc]
      exact ⟨h.tasksNodup, h.taskSched, h.held, h.keyJob, h.execRun, h.run, h.loopInv,
             h.finishPc, h.setPathPc, h.sucPc, h.failPc1, h.failPc2, h.suc, h.fai⟩
    · rw [if_neg hc]
      exact ⟨h.tasksNodup, h.taskSched, h.held, h.keyJob, h.execRun, h.run, h.loopInv,
             h.finishPc, h.setPathPc, h.sucPc, h.failPc1, h.failPc2, h.suc, h.fai⟩

/-- Any store rewrite that applies a per-record function which preserves the
branch key, fixes RUNNING records, and can only produce a RUNNING, SUCCEEDED or
FAILED record by leaving it unchanged, preserves the invariant.  This covers
cancel_job_if_pending and reset_for_retry. -/
theorem inv_jobs_map (env : String → Nat × Nat) (avail : Bool) (s : Sys)
    (jobs2 : JobStore) (fn : JobRec → JobRec)
    (hlook : ∀ x, alookup jobs2 x = alookup s.jobs x ∨
      alookup jobs2 x = (alookup s.jobs x).map fn)
    (hP1 : ∀ j, effKey (fn j) = effKey j)
    (hP2 : ∀ j, j.state = JobState.RUNNING → fn j = j)
    (hP3 : ∀ j, (fn j).state = JobState.RUNNING → fn j = j)
    (hP4 : ∀ j, (fn j).state = JobState.SUCCEEDED → fn j = j)
    (hP5 : ∀ j, (fn j).state = JobState.FAILED → fn j = j)
    (hfn : ∀ j, j.state = JobState.RUNNING →
      (fn j).progress = j.progress ∧ (fn j).result_path = j.result_path ∧
        tile_total avail env (fn j) = tile_total avail env j)
    (hinv : Inv env avail s) : Inv env avail { s with jobs := jobs2 } := by
  have hpres : ∀ {x : String} {jr : JobRec}, alookup s.jobs x = some jr →
      jr.state = JobState.RUNNING → alookup jobs2 x = some jr := by
    intro x jr hx hst
    rcases hlook x with hu | hmap
    · rw [hu]; exact hx
    · rw [hmap, hx, Option.map_some', hP2 jr hst]
  have hback : ∀ {x : String} {jr' : JobRec}, alookup jobs2 x = some jr' →
      (jr'.state = JobState.RUNNING ∨ jr'.state = JobState.SUCCEEDED ∨
        jr'.state = JobState.FAILED) → alookup s.jobs x = some jr' := by
    intro x jr' hx hst
    rcases hlook x with hu | hmap
    · rw [hu] at hx; exact hx
    · rw [hmap] at hx
      cases hl : alookup s.jobs x with
      | none => rw [hl] at hx; cases hx
      | some j =>
        rw [hl, Option.map_some', Option.some.injEq] at hx
        have hidl : fn j = j := by
          rcases hst with h1 | h1 | h1
          · exact hP3 j (by rw [hx]; exact h1)
          · exact hP4 j (by rw [hx]; exact h1)
          · exact hP5 j (by rw [hx]; exact h1)
        rw [← hx, hidl]
  have hrunof : ∀ {id : String} {pc : WPC}, (id, pc) ∈ s.tasks → isExec pc = true →
      ∀ {jr : JobRec}, alookup s.jobs id = some jr → jr.state = JobState.RUNNING := by
    intro id pc hm hex jr hjr
    obtain ⟨jr2, hjr2, hst2⟩ := hinv.execRun id pc hm hex
    rw [hjr] at hjr2
    injection hjr2 with hh
    rw [hh]
    exact hst2
  constructor
  case tasksNodup => exact hinv.tasksNodup
  case taskSched => exact hinv.taskSched
  case held => exact hinv.held
  case keyJob =>
    intro id pc k hm hk
    obtain ⟨jr, hjr, hek⟩ := hinv.keyJob id pc k hm hk
    rcases hlook id with hu | hmap
    · exact ⟨jr, by rw [hu]; exact hjr, hek⟩
    · exact ⟨fn jr, by rw [hmap, hjr, Option.map_some'], by rw [hP1]; exact hek⟩
  case execRun =>
    intro id pc hm hex
    obtain ⟨jr, hjr, hst⟩ := hinv.execRun id pc hm hex
    exact ⟨jr, hpres hjr hst, hst⟩
  case run =>
    intro id jr hl hst
    obtain ⟨pc, hm, hex, hh⟩ := hinv.run id jr (hback hl (Or.inl hst)) hst
    exact ⟨pc, hm, hex, hh⟩
  case loopInv =>
    intro id k u real p t hm
    obtain ⟨hpt, jr, hjr, ht, hpr⟩ := hinv.loopInv id k u real p t hm
    have hst := hrunof hm rfl hjr
    exact ⟨hpt, jr, hpres hjr hst, ht, hpr⟩
  case finishPc =>
    intro id k u hm
    obtain ⟨jr, hjr, hp1⟩ := hinv.finishPc id k u hm
    have hst := hrunof hm rfl hjr
    exact ⟨jr, hpres hjr hst, hp1⟩
  case setPathPc =>
    intro id k u hm
    obtain ⟨jr, hjr, hp1, hd⟩ := hinv.setPathPc id k u hm
    have hst := hrunof hm rfl hjr
    exact ⟨jr, hpres hjr hst, hp1, hd⟩
  case sucPc =>
    intro id k u hm
    obtain ⟨jr, hjr, hp1, hrp, hd⟩ := hinv.sucPc id k u hm
    have hst := hrunof hm rfl hjr
    exact ⟨jr, hpres hjr hst, hp1, hrp, hd⟩
  case failPc1 => exact hinv.failPc1
  case failPc2 =>
    intro id k u hm
    obtain ⟨jr, hjr, hrp, hd⟩ := hinv.failPc2 id k u hm
    have hst := hrunof hm rfl hjr
    exact ⟨jr, hpres hjr hst, hrp, hd⟩
  case suc =>
    intro id jr hl hst
    exact hinv.suc id jr (hback hl (Or.inr (Or.inl hst))) hst
  case fai =>
    intro id jr hl hst
    exact hinv.fai id jr (hback hl (Or.inr (Or.inr hst))) hst

/-- cancel_job_if_pending preserves the invariant. -/
theorem step_cancel_inv (env : String → Nat × Nat) (avail : Bool) (s : Sys)
    (job_id : String) (hinv : Inv env avail s) :
    Inv env avail { s with jobs := (cancel_job_if_pending s.jobs job_id).2 } := by
  refine inv_jobs_map env avail s _
    (fun j => if j.state = JobState.PENDING then { j with state := JobState.CANCELED } else j)
    ?_ ?_ ?_ ?_ ?_ ?_ ?_ hinv
  · intro x
    rw [cancel_job_if_pending_lookup]
    by_cases he : job_id = x
    · right; rw [if_pos he]
    · left; rw [if_neg he]
  · intro j
    by_cases hp : j.state = JobState.PENDING <;> simp [hp, effKey_set_state]
  · intro j hst
    dsimp only
    rw [if_neg (by rw [hst]; decide)]
  · intro j hst
    dsimp only at hst ⊢
    by_cases hp : j.state = JobState.PENDING
    · rw [if_pos hp] at hst
      simp at hst
    · rw [if_neg hp]
  · intro j hst
    dsimp only at hst ⊢
    by_cases hp : j.state = JobState.PENDING
    · rw [if_pos hp] at hst
      simp at hst
    · rw [if_neg hp]
  · intro j hst
    dsimp only at hst ⊢
    by_cases hp : j.state = JobState.PENDING
    · rw [if_pos hp] at hst
      simp at hst
    · rw [if_neg hp]
  · intro j hst
    dsimp only
    rw [if_neg (by rw [hst]; decide)]
    exact ⟨rfl, rfl, rfl⟩

/-- reset_for_retry preserves the invariant. -/
theorem step_retry_inv (env : String → Nat × Nat) (avail : Bool) (s : Sys)
    (job_id : String) (hinv : Inv env avail s) :
    Inv env avail { s with jobs := (reset_for_retry s.jobs job_id).2 } := by
  refine inv_jobs_map env avail s _
    (fun j => if j.state = JobState.RUNNING then j
      else { j with state := JobState.PENDING, progress := 0, result_path := none })
    ?_ ?_ ?_ ?_ ?_ ?_ ?_ hinv
  · intro x
    rw [reset_for_retry_lookup]
    by_cases he : job_id = x
    · right; rw [if_pos he]
    · left; rw [if_neg he]
  · intro j
    dsimp only
    by_cases hr : j.state = JobState.RUNNING
    · rw [if_pos hr]
    · rw [if_neg hr]
      rfl
  · intro j hst
    dsimp only
    rw [if_pos hst]
  · intro j hst
    dsimp only at hst ⊢
    by_cases hr : j.state = JobState.RUNNING
    · rw [if_pos hr]
    · rw [if_neg hr] at hst
      simp at hst
  · intro j hst
    dsimp only at hst ⊢
    by_cases hr : j.state = JobState.RUNNING
    · rw [if_pos hr]
    · rw [if_neg hr] at hst
      simp at hst
  · intro j hst
    dsimp only at hst ⊢
    by_cases hr : j.state = JobState.RUNNING
    · rw [if_pos hr]
    · rw [if_neg hr] at hst
      simp at hst
  · intro j hst
    dsimp only
    rw [if_pos hst]
    exact ⟨rfl, rfl, rfl⟩

/-- create_job preserves the invariant: the fresh record is PENDING and its id
carries no task. -/
theorem step_create_inv (env : String → Nat × Nat) (avail : Bool) (s : Sys)
    (job_id workflow_id user_id file_id : String) (jt : JobType) (branch : Option String)
    (hfresh : alookup s.jobs job_id = none) (hinv : Inv env avail s) :
    Inv env avail { s with
      jobs := aset s.jobs job_id
        (create_job_rec job_id workflow_id user_id file_id jt branch) } := by
  have hold : ∀ {x : String} {jr : JobRec}, alookup s.jobs x = some jr →
      alookup (aset s.jobs job_id
        (create_job_rec job_id workflow_id user_id file_id jt branch)) x = some jr := by
    intro x jr hx
    rw [alookup_aset]
    by_cases he : job_id = x
    · subst he; rw [hfresh] at hx; cases hx
    · rw [if_neg he]; exact hx
  constructor
  case tasksNodup => exact hinv.tasksNodup
  case taskSched => exact hinv.taskSched
  case held => exact hinv.held
  case keyJob =>
    intro id pc k hm hk
    obtain ⟨jr, hjr, hek⟩ := hinv.keyJob id pc k hm hk
    exact ⟨jr, hold hjr, hek⟩
  case execRun =>
    intro id pc hm hex
    obtain ⟨jr, hjr, hst⟩ := hinv.execRun id pc hm hex
    exact ⟨jr, hold hjr, hst⟩
  case run =>
    intro id jr hl hst
    rw [alookup_aset] at hl
    by_cases he : job_id = id
    · rw [if_pos he, Option.some.injEq] at hl
      rw [← hl] at hst
      simp [create_job_rec] at hst
    · rw [if_neg he] at hl
      exact hinv.run id jr hl hst
  case loopInv =>
    intro id k u real p t hm
    obtain ⟨hpt, jr, hjr, ht, hpr⟩ := hinv.loopInv id k u real p t hm
    exact ⟨hpt, jr, hold hjr, ht, hpr⟩
  case finishPc =>
    intro id k u hm
    obtain ⟨jr, hjr, hp1⟩ := hinv.finishPc id k u hm
    exact ⟨jr, hold hjr, hp1⟩
  case setPathPc =>
    intro id k u hm
    obtain ⟨jr, hjr, hp1, hd⟩ := hinv.setPathPc id k u hm
    exact ⟨jr, hold hjr, hp1, hd⟩
  case sucPc =>
    intro id k u hm
    obtain ⟨jr, hjr, hp1, hrp, hd⟩ := hinv.sucPc id k u hm
    exact ⟨jr, hold hjr, hp1, hrp, hd⟩
  case failPc1 => exact hinv.failPc1
  case failPc2 =>
    intro id k u hm
    obtain ⟨jr, hjr, hrp, hd⟩ := hinv.failPc2 id k u hm
    exact ⟨jr, hold hjr, hrp, hd⟩
  case suc =>
    intro id jr hl hst
    rw [alookup_aset] at hl
    by_cases he : job_id = id
    · rw [if_pos he, Option.some.injEq] at hl
      rw [← hl] at hst
      simp [create_job_rec] at hst
    · rw [if_neg he] at hl
      exact hinv.suc id jr hl hst
  case fai =>
    intro id jr hl hst
    rw [alookup_aset] at hl
    by_cases he : job_id = id
    · rw [if_pos he, Option.some.injEq] at hl
      rw [← hl] at hst
      simp [create_job_rec] at hst
    · rw [if_neg he] at hl
      exact hinv.fai id jr hl hst

/-- Spawning a fresh worker task for an unscheduled job preserves the
invariant. -/
theorem step_enqueue_new_inv (env : String → Nat × Nat) (avail : Bool) (s : Sys)
    (job_id : String) (hin : job_id ∉ s.scheduled) (hinv : Inv env avail s) :
    Inv env avail { s with scheduled := job_id :: s.scheduled,
                           tasks := (job_id, WPC.start) :: s.tasks } := by
  have hnotask : ∀ pc : WPC, (job_id, pc) ∉ s.tasks := by
    intro pc hm
    exact hin (hinv.taskSched job_id pc hm)
  constructor
  case tasksNodup =>
    simp only [List.map_cons, List.nodup_cons]
    refine ⟨?_, hinv.tasksNodup⟩
    intro hmem
    obtain ⟨p, hp, he⟩ := List.mem_map.mp hmem
    obtain ⟨a, b⟩ := p
    cases he
    exact hnotask b hp
  case taskSched =>
    intro id pc hm
    rcases List.mem_cons.mp hm with he | hm2
    · injection he with h1 h2
      rw [h1]
      exact List.mem_cons_self _ _
    · exact List.mem_cons_of_mem _ (hinv.taskSched id pc hm2)
  case held =>
    intro id pc k hm hk
    rcases List.mem_cons.mp hm with he | hm2
    · injection he with h1 h2
      rw [h2] at hk
      cases hk
    · exact hinv.held id pc k hm2 hk
  case keyJob =>
    intro id pc k hm hk
    rcases List.mem_cons.mp hm with he | hm2
    · injection he with h1 h2
      rw [h2] at hk
      cases hk
    · exact hinv.keyJob id pc k hm2 hk
  case execRun =>
    intro id pc hm hex
    rcases List.mem_cons.mp hm with he | hm2
    · injection he with h1 h2
      rw [h2] at hex
      cases hex
    · exact hinv.execRun id pc hm2 hex
  case run =>
    intro id jr hl hst
    obtain ⟨pc, hm, hex, hh⟩ := hinv.run id jr hl hst
    exact ⟨pc, List.mem_cons_of_mem _ hm, hex, hh⟩
  case loopInv =>
    intro id k u real p t hm
    rcases List.mem_cons.mp hm with he | hm2
    · injection he with h1 h2
      cases h2
    · exact hinv.loopInv id k u real p t hm2
  case finishPc =>
    intro id k u hm
    rcases List.mem_cons.mp hm with he | hm2
    · injection he with h1 h2
      cases h2
    · exact hinv.finishPc id k u hm2
  case setPathPc =>
    intro id k u hm
    rcases List.mem_cons.mp hm with he | hm2
    · injection he with h1 h2
      cases h2
    · exact hinv.setPathPc id k u hm2
  case sucPc =>
    intro id k u hm
    rcases List.mem_cons.mp hm with he | hm2
    · injection he with h1 h2
      cases h2
    · exact hinv.sucPc id k u hm2
  case failPc1 =>
    intro id k u hm
    rcases List.mem_cons.mp hm with he | hm2
    · injection he with h1 h2
      cases h2
    · exact hinv.failPc1 id k u hm2
  case failPc2 =>
    intro id k u hm
    rcases List.mem_cons.mp hm with he | hm2
    · injection he with h1 h2
      cases h2
    · exact hinv.failPc2 id k u hm2
  case suc => exact hinv.suc
  case fai => exact hinv.fai

/-- enqueue_job preserves the invariant. -/
theorem step_enqueue_inv (env : String → Nat × Nat) (avail : Bool) (s : Sys)
    (job_id : String) (hinv : Inv env avail s) : Inv env avail (enqueue_job s job_id) := by
  unfold enqueue_job
  by_cases hin : job_id ∈ s.scheduled
  · rw [if_pos hin]; exact hinv
  · rw [if_neg hin]
    exact step_enqueue_new_inv env avail s job_id hin hinv

/-- Moving a task between two non-executor program points that carry and hold
the same branch key preserves the invariant; the worker and semaphore
counters may change arbitrarily. -/
theorem inv_gate_move (env : String → Nat × Nat) (avail : Bool) (s : Sys)
    (id : String) (k : String × String) (pc1 pc2 : WPC) (aw sem : Nat)
    (hm : (id, pc1) ∈ s.tasks)
    (hpck1 : pcKey pc1 = some k) (hheld1 : heldKey pc1 = some k)
    (hpck2 : pcKey pc2 = some k) (hheld2 : heldKey pc2 = some k)
    (hex1 : isExec pc1 = false) (hex2 : isExec pc2 = false)
    (hinv : Inv env avail s) :
    Inv env avail { s with activeWorkers := aw, semAvail := sem,
                           tasks := taskUpd s.tasks id pc2 } := by
  constructor
  case tasksNodup => exact nodup_keys_taskUpd _ _ _ hinv.tasksNodup
  case taskSched =>
    intro id0 pc0 hm0
    rcases (mem_taskUpd_iff _ _ _ _).mp hm0 with heq | ⟨hm2, hne⟩
    · injection heq with e1 e2
      rw [e1]
      exact hinv.taskSched id pc1 hm
    · exact hinv.taskSched id0 pc0 hm2
  case held =>
    intro id0 pc0 k0 hm0 hk0
    rcases (mem_taskUpd_iff _ _ _ _).mp hm0 with heq | ⟨hm2, hne⟩
    · injection heq with e1 e2
      subst e1
      rw [e2, hheld2, Option.some.injEq] at hk0
      rw [← hk0]
      exact hinv.held id0 pc1 k hm hheld1
    · exact hinv.held id0 pc0 k0 hm2 hk0
  case keyJob =>
    intro id0 pc0 k0 hm0 hk0
    rcases (mem_taskUpd_iff _ _ _ _).mp hm0 with heq | ⟨hm2, hne⟩
    · injection heq with e1 e2
      subst e1
      rw [e2, hpck2, Option.some.injEq] at hk0
      rw [← hk0]
      exact hinv.keyJob id0 pc1 k hm hpck1
    · exact hinv.keyJob id0 pc0 k0 hm2 hk0
  case execRun =>
    intro id0 pc0 hm0 hex0
    rcases (mem_taskUpd_iff _ _ _ _).mp hm0 with heq | ⟨hm2, hne⟩
    · injection heq with e1 e2
      rw [e2, hex2] at hex0
      cases hex0
    · exact hinv.execRun id0 pc0 hm2 hex0
  case run =>
    intro id0 jr hl hst
    obtain ⟨pc0, hm0, hex0, hh0⟩ := hinv.run id0 jr hl hst
    by_cases he : id0 = id
    · subst he
      rw [mem_unique_of_keys_nodup hinv.tasksNodup hm0 hm] at hex0
      rw [hex1] at hex0
      cases hex0
    · exact ⟨pc0, (mem_taskUpd_iff _ _ _ _).mpr (Or.inr ⟨hm0, he⟩), hex0, hh0⟩
  case loopInv =>
    intro id0 k0 u0 real p t hm0
    rcases (mem_taskUpd_iff _ _ _ _).mp hm0 with heq | ⟨hm2, hne⟩
    · injection heq with e1 e2
      rw [← e2] at hex2
      simp [isExec] at hex2
    · exact hinv.loopInv id0 k0 u0 real p t hm2
  case finishPc =>
    intro id0 k0 u0 hm0
    rcases (mem_taskUpd_iff _ _ _ _).mp hm0 with heq | ⟨hm2, hne⟩
    · injection heq with e1 e2
      rw [← e2] at hex2
      simp [isExec] at hex2
    · exact hinv.finishPc id0 k0 u0 hm2
  case setPathPc =>
    intro id0 k0 u0 hm0
    rcases (mem_taskUpd_iff _ _ _ _).mp hm0 with heq | ⟨hm2, hne⟩
    · injection heq with e1 e2
      rw [← e2] at hex2
      simp [isExec] at hex2
    · exact hinv.setPathPc id0 k0 u0 hm2
  case sucPc =>
    intro id0 k0 u0 hm0
    rcases (mem_taskUpd_iff _ _ _ _).mp hm0 with heq | ⟨hm2, hne⟩
    · injection heq with e1 e2
      rw [← e2] at hex2
      simp [isExec] at hex2
    · exact hinv.sucPc id0 k0 u0 hm2
  case failPc1 =>
    intro id0 k0 u0 hm0
    rcases (mem_taskUpd_iff _ _ _ _).mp hm0 with heq | ⟨hm2, hne⟩
    · injection heq with e1 e2
      rw [← e2] at hex2
      simp [isExec] at hex2
    · exact hinv.failPc1 id0 k0 u0 hm2
  case failPc2 =>
    intro id0 k0 u0 hm0
    rcases (mem_taskUpd_iff _ _ _ _).mp hm0 with heq | ⟨hm2, hne⟩
    · injection heq with e1 e2
      rw [← e2] at hex2
      simp [isExec] at hex2
    · exact hinv.failPc2 id0 k0 u0 hm2
  case suc => exact hinv.suc
  case fai => exact hinv.fai

/-- Removing a non-executor task and releasing its branch lock and scheduled
entry preserves the invariant. -/
theorem inv_task_exit (env : String → Nat × Nat) (avail : Bool) (s : Sys)
    (id : String) (k : String × String) (pcx : WPC) (aw sem : Nat)
    (hm : (id, pcx) ∈ s.tasks) (hheldx : heldKey pcx = some k)
    (hexx : isExec pcx = false) (hinv : Inv env avail s) :
    Inv env avail { s with activeWorkers := aw, semAvail := sem,
                           branchOwner := aremove s.branchOwner k,
                           tasks := aremove s.tasks id,
                           scheduled := sremove s.scheduled id } := by
  constructor
  case tasksNodup => exact nodup_keys_aremove _ _ hinv.tasksNodup
  case taskSched =>
    intro id0 pc0 hm0
    obtain ⟨hm2, hne⟩ := (mem_aremove_iff _ _ _).mp hm0
    exact (mem_sremove_iff _ _ _).mpr ⟨hinv.taskSched id0 pc0 hm2, hne⟩
  case held =>
    intro id0 pc0 k0 hm0 hk0
    obtain ⟨hm2, hne⟩ := (mem_aremove_iff _ _ _).mp hm0
    by_cases hkk : k = k0
    · subst hkk
      have h1 := hinv.held id0 pc0 k hm2 hk0
      have h2 := hinv.held id pcx k hm hheldx
      rw [h2, Option.some.injEq] at h1
      exact absurd h1.symm hne
    · rw [alookup_aremove, if_neg hkk]
      exact hinv.held id0 pc0 k0 hm2 hk0
  case keyJob =>
    intro id0 pc0 k0 hm0 hk0
    obtain ⟨hm2, hne⟩ := (mem_aremove_iff _ _ _).mp hm0
    exact hinv.keyJob id0 pc0 k0 hm2 hk0
  case execRun =>
    intro id0 pc0 hm0 hex0
    obtain ⟨hm2, hne⟩ := (mem_aremove_iff _ _ _).mp hm0
    exact hinv.execRun id0 pc0 hm2 hex0
  case run =>
    intro id0 jr hl hst
    obtain ⟨pc0, hm0, hex0, hh0⟩ := hinv.run id0 jr hl hst
    by_cases he : id0 = id
    · subst he
      rw [mem_unique_of_keys_nodup hinv.tasksNodup hm0 hm] at hex0
      rw [hexx] at hex0
      cases hex0
    · exact ⟨pc0, (mem_aremove_iff _ _ _).mpr ⟨hm0, he⟩, hex0, hh0⟩
  case loopInv =>
    intro id0 k0 u0 real p t hm0
    obtain ⟨hm2, hne⟩ := (mem_aremove_iff _ _ _).mp hm0
    exact hinv.loopInv id0 k0 u0 real p t hm2
  case finishPc =>
    intro id0 k0 u0 hm0
    obtain ⟨hm2, hne⟩ := (mem_aremove_iff _ _ _).mp hm0
    exact hinv.finishPc id0 k0 u0 hm2
  case setPathPc =>
    intro id0 k0 u0 hm0
    obtain ⟨hm2, hne⟩ := (mem_aremove_iff _ _ _).mp hm0
    exact hinv.setPathPc id0 k0 u0 hm2
  case sucPc =>
    intro id0 k0 u0 hm0
    obtain ⟨hm2, hne⟩ := (mem_aremove_iff _ _ _).mp hm0
    exact hinv.sucPc id0 k0 u0 hm2
  case failPc1 =>
    intro id0 k0 u0 hm0
    obtain ⟨hm2, hne⟩ := (mem_aremove_iff _ _ _).mp hm0
    exact hinv.failPc1 id0 k0 u0 hm2
  case failPc2 =>
    intro id0 k0 u0 hm0
    obtain ⟨hm2, hne⟩ := (mem_aremove_iff _ _ _).mp hm0
    exact hinv.failPc2 id0 k0 u0 hm2
  case suc => exact hinv.suc
  case fai => exact hinv.fai

/-- The first worker action on a present job: record the branch key and user
read from the store. -/
theorem step_startFound_inv (env : String → Nat × Nat) (avail : Bool) (s : Sys)
    (id : String) (jr : JobRec) (hm : (id, WPC.start) ∈ s.tasks)
    (hjob : alookup s.jobs id = some jr) (hinv : Inv env avail s) :
    Inv env avail { s with
      tasks := taskUpd s.tasks id (WPC.acqBranch (effKey jr) jr.user_id) } := by
  constructor
  case tasksNodup => exact nodup_keys_taskUpd _ _ _ hinv.tasksNodup
  case taskSched =>
    intro id0 pc0 hm0
    rcases (mem_taskUpd_iff _ _ _ _).mp hm0 with heq | ⟨hm2, hne⟩
    · injection heq with e1 e2
      rw [e1]
      exact hinv.taskSched id WPC.start hm
    · exact hinv.taskSched id0 pc0 hm2
  case held =>
    intro id0 pc0 k0 hm0 hk0
    rcases (mem_taskUpd_iff _ _ _ _).mp hm0 with heq | ⟨hm2, hne⟩
    · injection heq with e1 e2
      rw [e2] at hk0
      cases hk0
    · exact hinv.held id0 pc0 k0 hm2 hk0
  case keyJob =>
    intro id0 pc0 k0 hm0 hk0
    rcases (mem_taskUpd_iff _ _ _ _).mp hm0 with heq | ⟨hm2, hne⟩
    · injection heq with e1 e2
      subst e1
      rw [e2] at hk0
      simp only [pcKey, Option.some.injEq] at hk0
      exact ⟨jr, hjob, hk0⟩
    · exact hinv.keyJob id0 pc0 k0 hm2 hk0
  case execRun =>
    intro id0 pc0 hm0 hex0
    rcases (mem_taskUpd_iff _ _ _ _).mp hm0 with heq | ⟨hm2, hne⟩
    · injection heq with e1 e2
      rw [e2] at hex0
      cases hex0
    · exact hinv.execRun id0 pc0 hm2 hex0
  case run =>
    intro id0 jr0 hl hst
    obtain ⟨pc0, hm0, hex0, hh0⟩ := hinv.run id0 jr0 hl hst
    by_cases he : id0 = id
    · subst he
      rw [mem_unique_of_keys_nodup hinv.tasksNodup hm0 hm] at hex0
      cases hex0
    · exact ⟨pc0, (mem_taskUpd_iff _ _ _ _).mpr (Or.inr ⟨hm0, he⟩), hex0, hh0⟩
  case loopInv =>
    intro id0 k0 u0 real p t hm0
    rcases (mem_taskUpd_iff _ _ _ _).mp hm0 with heq | ⟨hm2, hne⟩
    · injection heq with e1 e2
      cases e2
    · exact hinv.loopInv id0 k0 u0 real p t hm2
  case finishPc =>
    intro id0 k0 u0 hm0
    rcases (mem_taskUpd_iff _ _ _ _).mp hm0 with heq | ⟨hm2, hne⟩
    · injection heq with e1 e2
      cases e2
    · exact hinv.finishPc id0 k0 u0 hm2
  case setPathPc =>
    intro id0 k0 u0 hm0
    rcases (mem_taskUpd_iff _ _ _ _).mp hm0 with heq | ⟨hm2, hne⟩
    · injection heq with e1 e2
      cases e2
    · exact hinv.setPathPc id0 k0 u0 hm2
  case sucPc =>
    intro id0 k0 u0 hm0
    rcases (mem_taskUpd_iff _ _ _ _).mp hm0 with heq | ⟨hm2, hne⟩
    · injection heq with e1 e2
      cases e2
    · exact hinv.sucPc id0 k0 u0 hm2
  case failPc1 =>
    intro id0 k0 u0 hm0
    rcases (mem_taskUpd_iff _ _ _ _).mp hm0 with heq | ⟨hm2, hne⟩
    · injection heq with e1 e2
      cases e2
    · exact hinv.failPc1 id0 k0 u0 hm2
  case failPc2 =>
    intro id0 k0 u0 hm0
    rcases (mem_taskUpd_iff _ _ _ _).mp hm0 with heq | ⟨hm2, hne⟩
    · injection heq with e1 e2
      cases e2
    · exact hinv.failPc2 id0 k0 u0 hm2
  case suc => exact hinv.suc
  case fai => exact hinv.fai

/-- A worker that finds its job missing at the first read exits, dropping its
task and scheduled entry; it holds no lock. -/
theorem step_startMissing_inv (env : String → Nat × Nat) (avail : Bool) (s : Sys)
    (id : String) (hm : (id, WPC.start) ∈ s.tasks)
    (hjob : alookup s.jobs id = none) (hinv : Inv env avail s) :
    Inv env avail { s with tasks := aremove s.tasks id,
                           scheduled := sremove s.scheduled id } := by
  constructor
  case tasksNodup => exact nodup_keys_aremove _ _ hinv.tasksNodup
  case taskSched =>
    intro id0 pc0 hm0
    obtain ⟨hm2, hne⟩ := (mem_aremove_iff _ _ _).mp hm0
    exact (mem_sremove_iff _ _ _).mpr ⟨hinv.taskSched id0 pc0 hm2, hne⟩
  case held =>
    intro id0 pc0 k0 hm0 hk0
    obtain ⟨hm2, hne⟩ := (mem_aremove_iff _ _ _).mp hm0
    exact hinv.held id0 pc0 k0 hm2 hk0
  case keyJob =>
    intro id0 pc0 k0 hm0 hk0
    obtain ⟨hm2, hne⟩ := (mem_aremove_iff _ _ _).mp hm0
    exact hinv.keyJob id0 pc0 k0 hm2 hk0
  case execRun =>
    intro id0 pc0 hm0 hex0
    obtain ⟨hm2, hne⟩ := (mem_aremove_iff _ _ _).mp hm0
    exact hinv.execRun id0 pc0 hm2 hex0
  case run =>
    intro id0 jr0 hl hst
    obtain ⟨pc0, hm0, hex0, hh0⟩ := hinv.run id0 jr0 hl hst
    by_cases he : id0 = id
    · subst he
      rw [hjob] at hl
      cases hl
    · exact ⟨pc0, (mem_aremove_iff _ _ _).mpr ⟨hm0, he⟩, hex0, hh0⟩
  case loopInv =>
    intro id0 k0 u0 real p t hm0
    obtain ⟨hm2, hne⟩ := (mem_aremove_iff _ _ _).mp hm0
    exact hinv.loopInv id0 k0 u0 real p t hm2
  case finishPc =>
    intro id0 k0 u0 hm0
    obtain ⟨hm2, hne⟩ := (mem_aremove_iff _ _ _).mp hm0
    exact hinv.finishPc id0 k0 u0 hm2
  case setPathPc =>
    intro id0 k0 u0 hm0
    obtain ⟨hm2, hne⟩ := (mem_aremove_iff _ _ _).mp hm0
    exact hinv.setPathPc id0 k0 u0 hm2
  case sucPc =>
    intro id0 k0 u0 hm0
    obtain ⟨hm2, hne⟩ := (mem_aremove_iff _ _ _).mp hm0
    exact hinv.sucPc id0 k0 u0 hm2
  case failPc1 =>
    intro id0 k0 u0 hm0
    obtain ⟨hm2, hne⟩ := (mem_aremove_iff _ _ _).mp hm0
    exact hinv.failPc1 id0 k0 u0 hm2
  case failPc2 =>
    intro id0 k0 u0 hm0
    obtain ⟨hm2, hne⟩ := (mem_aremove_iff _ _ _).mp hm0
    exact hinv.failPc2 id0 k0 u0 hm2
  case suc => exact hinv.suc
  case fai => exact hinv.fai

/-- Acquiring a free branch lock and entering the critical section preserves
the invariant. -/
theorem step_acqBranch_inv (env : String → Nat × Nat) (avail : Bool) (s : Sys)
    (id : String) (k : String × String) (u : String)
    (hm : (id, WPC.acqBranch k u) ∈ s.tasks)
    (hfree : alookup s.branchOwner k = none) (hinv : Inv env avail s) :
    Inv env avail { s with branchOwner := (k, id) :: s.branchOwner,
                           tasks := taskUpd s.tasks id (WPC.check1 k u) } := by
  constructor
  case tasksNodup => exact nodup_keys_taskUpd _ _ _ hinv.tasksNodup
  case taskSched =>
    intro id0 pc0 hm0
    rcases (mem_taskUpd_iff _ _ _ _).mp hm0 with heq | ⟨hm2, hne⟩
    · injection heq with e1 e2
      rw [e1]
      exact hinv.taskSched id (WPC.acqBranch k u) hm
    · exact hinv.taskSched id0 pc0 hm2
  case held =>
    intro id0 pc0 k0 hm0 hk0
    rcases (mem_taskUpd_iff _ _ _ _).mp hm0 with heq | ⟨hm2, hne⟩
    · injection heq with e1 e2
      subst e1
      rw [e2] at hk0
      simp only [heldKey, pcKey, Option.some.injEq] at hk0
      rw [alookup_cons, if_pos hk0]
    · by_cases hkk : k = k0
      · subst hkk
        have h1 := hinv.held id0 pc0 k hm2 hk0
        rw [hfree] at h1
        cases h1
      · rw [alookup_cons, if_neg hkk]
        exact hinv.held id0 pc0 k0 hm2 hk0
  case keyJob =>
    intro id0 pc0 k0 hm0 hk0
    rcases (mem_taskUpd_iff _ _ _ _).mp hm0 with heq | ⟨hm2, hne⟩
    · injection heq with e1 e2
      subst e1
      rw [e2] at hk0
      exact hinv.keyJob id0 (WPC.acqBranch k u) k0 hm hk0
    · exact hinv.keyJob id0 pc0 k0 hm2 hk0
  case execRun =>
    intro id0 pc0 hm0 hex0
    rcases (mem_taskUpd_iff _ _ _ _).mp hm0 with heq | ⟨hm2, hne⟩
    · injection heq with e1 e2
      rw [e2] at hex0
      cases hex0
    · exact hinv.execRun id0 pc0 hm2 hex0
  case run =>
    intro id0 jr0 hl hst
    obtain ⟨pc0, hm0, hex0, hh0⟩ := hinv.run id0 jr0 hl hst
    by_cases he : id0 = id
    · subst he
      rw [mem_unique_of_keys_nodup hinv.tasksNodup hm0 hm] at hex0
      cases hex0
    · exact ⟨pc0, (mem_taskUpd_iff _ _ _ _).mpr (Or.inr ⟨hm0, he⟩), hex0, hh0⟩
  case loopInv =>
    intro id0 k0 u0 real p t hm0
    rcases (mem_taskUpd_iff _ _ _ _).mp hm0 with heq | ⟨hm2, hne⟩
    · injection heq with e1 e2
      cases e2
    · exact hinv.loopInv id0 k0 u0 real p t hm2
  case finishPc =>
    intro id0 k0 u0 hm0
    rcases (mem_taskUpd_iff _ _ _ _).mp hm0 with heq | ⟨hm2, hne⟩
    · injection heq with e1 e2
      cases e2
    · exact hinv.finishPc id0 k0 u0 hm2
  case setPathPc =>
    intro id0 k0 u0 hm0
    rcases (mem_taskUpd_iff _ _ _ _).mp hm0 with heq | ⟨hm2, hne⟩
    · injection heq with e1 e2
      cases e2
    · exact hinv.setPathPc id0 k0 u0 hm2
  case sucPc =>
    intro id0 k0 u0 hm0
    rcases (mem_taskUpd_iff _ _ _ _).mp hm0 with heq | ⟨hm2, hne⟩
    · injection heq with e1 e2
      cases e2
    · exact hinv.sucPc id0 k0 u0 hm2
  case failPc1 =>
    intro id0 k0 u0 hm0
    rcases (mem_taskUpd_iff _ _ _ _).mp hm0 with heq | ⟨hm2, hne⟩
    · injection heq with e1 e2
      cases e2
    · exact hinv.failPc1 id0 k0 u0 hm2
  case failPc2 =>
    intro id0 k0 u0 hm0
    rcases (mem_taskUpd_iff _ _ _ _).mp hm0 with heq | ⟨hm2, hne⟩
    · injection heq with e1 e2
      cases e2
    · exact hinv.failPc2 id0 k0 u0 hm2
  case suc => exact hinv.suc
  case fai => exact hinv.fai

/-- run_job's first action: set the job RUNNING and enter the tile loop with
the total computed from the source image.  This is the step that creates a
RUNNING job, and its task holds the job's branch key. -/
theorem step_setRunningFound_inv (env : String → Nat × Nat) (avail : Bool) (s : Sys)
    (id : String) (k : String × String) (u : String) (jr : JobRec)
    (hm : (id, WPC.setRunning k u) ∈ s.tasks)
    (hjob : alookup s.jobs id = some jr) (hinv : Inv env avail s) :
    Inv env avail { s with
      jobs := (update_job_state s.jobs id JobState.RUNNING).2,
      tasks := taskUpd s.tasks id
        (WPC.loop k u (real_tiled avail jr) 0 (tile_total avail env jr)) } := by
  have hself : alookup (update_job_state s.jobs id JobState.RUNNING).2 id =
      some { jr with state := JobState.RUNNING } := by
    rw [update_job_state_lookup, if_pos rfl, hjob, Option.map_some']
  have hoth : ∀ {x : String}, ¬ id = x →
      alookup (update_job_state s.jobs id JobState.RUNNING).2 x = alookup s.jobs x := by
    intro x hx
    rw [update_job_state_lookup, if_neg hx]
  have hkey : effKey jr = k := by
    obtain ⟨jr2, hjr2, hek⟩ := hinv.keyJob id (WPC.setRunning k u) k hm rfl
    rw [hjob] at hjr2
    injection hjr2 with hh
    rw [hh]
    exact hek
  constructor
  case tasksNodup => exact nodup_keys_taskUpd _ _ _ hinv.tasksNodup
  case taskSched =>
    intro id0 pc0 hm0
    rcases (mem_taskUpd_iff _ _ _ _).mp hm0 with heq | ⟨hm2, hne⟩
    · injection heq with e1 e2
      rw [e1]
      exact hinv.taskSched id (WPC.setRunning k u) hm
    · exact hinv.taskSched id0 pc0 hm2
  case held =>
    intro id0 pc0 k0 hm0 hk0
    rcases (mem_taskUpd_iff _ _ _ _).mp hm0 with heq | ⟨hm2, hne⟩
    · injection heq with e1 e2
      subst e1
      rw [e2] at hk0
      simp only [heldKey, pcKey, Option.some.injEq] at hk0
      rw [← hk0]
      exact hinv.held id0 (WPC.setRunning k u) k hm rfl
    · exact hinv.held id0 pc0 k0 hm2 hk0
  case keyJob =>
    intro id0 pc0 k0 hm0 hk0
    rcases (mem_taskUpd_iff _ _ _ _).mp hm0 with heq | ⟨hm2, hne⟩
    · injection heq with e1 e2
      subst e1
      rw [e2] at hk0
      simp only [pcKey, Option.some.injEq] at hk0
      refine ⟨{ jr with state := JobState.RUNNING }, hself, ?_⟩
      rw [effKey_set_state, hkey]
      exact hk0
    · obtain ⟨jr0, hjr0, hek0⟩ := hinv.keyJob id0 pc0 k0 hm2 hk0
      exact ⟨jr0, by rw [hoth (fun e => hne e.symm)]; exact hjr0, hek0⟩
  case execRun =>
    intro id0 pc0 hm0 hex0
    rcases (mem_taskUpd_iff _ _ _ _).mp hm0 with heq | ⟨hm2, hne⟩
    · injection heq with e1 e2
      subst e1
      exact ⟨{ jr with state := JobState.RUNNING }, hself, rfl⟩
    · obtain ⟨jr0, hjr0, hst0⟩ := hinv.execRun id0 pc0 hm2 hex0
      exact ⟨jr0, by rw [hoth (fun e => hne e.symm)]; exact hjr0, hst0⟩
  case run =>
    intro id0 jr0 hl hst
    by_cases he : id = id0
    · subst he
      rw [hself, Option.some.injEq] at hl
      refine ⟨WPC.loop k u (real_tiled avail jr) 0 (tile_total avail env jr),
        (mem_taskUpd_iff _ _ _ _).mpr (Or.inl rfl), rfl, ?_⟩
      simp only [heldKey, pcKey, Option.some.injEq]
      rw [← hl, effKey_set_state, hkey]
    · rw [hoth he] at hl
      obtain ⟨pc0, hm0, hex0, hh0⟩ := hinv.run id0 jr0 hl hst
      have hne0 : (id0, pc0).1 ≠ id := fun e => he e.symm
      exact ⟨pc0, (mem_taskUpd_iff _ _ _ _).mpr (Or.inr ⟨hm0, hne0⟩), hex0, hh0⟩
  case loopInv =>
    intro id0 k0 u0 real0 p0 t0 hm0
    rcases (mem_taskUpd_iff _ _ _ _).mp hm0 with heq | ⟨hm2, hne⟩
    · injection heq with e1 e2
      subst e1
      injection e2 with ek eu er ep et
      subst ep
      subst et
      refine ⟨Nat.zero_le _, { jr with state := JobState.RUNNING }, hself, ?_, ?_⟩
      · exact (tile_total_set_state avail env jr JobState.RUNNING).symm
      · intro h0
        exact absurd h0 (by omega)
    · obtain ⟨hpt, jr0, hjr0, ht0, hpr0⟩ := hinv.loopInv id0 k0 u0 real0 p0 t0 hm2
      exact ⟨hpt, jr0, by rw [hoth (fun e => hne e.symm)]; exact hjr0, ht0, hpr0⟩
  case finishPc =>
    intro id0 k0 u0 hm0
    rcases (mem_taskUpd_iff _ _ _ _).mp hm0 with heq | ⟨hm2, hne⟩
    · injection heq with e1 e2
      cases e2
    · obtain ⟨jr0, hjr0, hp0⟩ := hinv.finishPc id0 k0 u0 hm2
      exact ⟨jr0, by rw [hoth (fun e => hne e.symm)]; exact hjr0, hp0⟩
  case setPathPc =>
    intro id0 k0 u0 hm0
    rcases (mem_taskUpd_iff _ _ _ _).mp hm0 with heq | ⟨hm2, hne⟩
    · injection heq with e1 e2
      cases e2
    · obtain ⟨jr0, hjr0, hp0, hd0⟩ := hinv.setPathPc id0 k0 u0 hm2
      exact ⟨jr0, by rw [hoth (fun e => hne e.symm)]; exact hjr0, hp0, hd0⟩
  case sucPc =>
    intro id0 k0 u0 hm0
    rcases (mem_taskUpd_iff _ _ _ _).mp hm0 with heq | ⟨hm2, hne⟩
    · injection heq with e1 e2
      cases e2
    · obtain ⟨jr0, hjr0, hp0, hrp0, hd0⟩ := hinv.sucPc id0 k0 u0 hm2
      exact ⟨jr0, by rw [hoth (fun e => hne e.symm)]; exact hjr0, hp0, hrp0, hd0⟩
  case failPc1 =>
    intro id0 k0 u0 hm0
    rcases (mem_taskUpd_iff _ _ _ _).mp hm0 with heq | ⟨hm2, hne⟩
    · injection heq with e1 e2
      cases e2
    · exact hinv.failPc1 id0 k0 u0 hm2
  case failPc2 =>
    intro id0 k0 u0 hm0
    rcases (mem_taskUpd_iff _ _ _ _).mp hm0 with heq | ⟨hm2, hne⟩
    · injection heq with e1 e2
      cases e2
    · obtain ⟨jr0, hjr0, hrp0, hd0⟩ := hinv.failPc2 id0 k0 u0 hm2
      exact ⟨jr0, by rw [hoth (fun e => hne e.symm)]; exact hjr0, hrp0, hd0⟩
  case suc =>
    intro id0 jr0 hl hst
    by_cases he : id = id0
    · subst he
      rw [hself, Option.some.injEq] at hl
      rw [← hl] at hst
      simp at hst
    · rw [hoth he] at hl
      exact hinv.suc id0 jr0 hl hst
  case fai =>
    intro id0 jr0 hl hst
    by_cases he : id = id0
    · subst he
      rw [hself, Option.some.injEq] at hl
      rw [← hl] at hst
      simp at hst
    · rw [hoth he] at hl
      exact hinv.fai id0 jr0 hl hst

/-- One tile iteration: report progress (p+1)/t and advance the loop counter.
The tiled paths also report the tile counters; the simulated path reports the
defaults. -/
theorem step_loopStep_inv (env : String → Nat × Nat) (avail : Bool) (s : Sys)
    (id : String) (k : String × String) (u : String) (real : Bool) (p t : Nat)
    (hm : (id, WPC.loop k u real p t) ∈ s.tasks) (hlt : p < t)
    (hinv : Inv env avail s) :
    Inv env avail { s with
      jobs := (set_job_progress s.jobs id ((p + 1 : ℚ) / (t : ℚ))
        (if real then p + 1 else 0) (if real then t else 0)).2,
      tasks := taskUpd s.tasks id (WPC.loop k u real (p + 1) t) } := by
  obtain ⟨hpt, jrL, hjrL, htL, hprL⟩ := hinv.loopInv id k u real p t hm
  have hstL : jrL.state = JobState.RUNNING := by
    obtain ⟨jrE, hjrE, hstE⟩ := hinv.execRun id (WPC.loop k u real p t) hm rfl
    rw [hjrL] at hjrE
    injection hjrE with hh
    rw [hh]
    exact hstE
  have hkey : effKey jrL = k := by
    obtain ⟨jr2, hjr2, hek⟩ := hinv.keyJob id (WPC.loop k u real p t) k hm rfl
    rw [hjrL] at hjr2
    injection hjr2 with hh
    rw [hh]
    exact hek
  have hself : alookup (set_job_progress s.jobs id ((p + 1 : ℚ) / (t : ℚ))
      (if real then p + 1 else 0) (if real then t else 0)).2 id =
      some { jrL with progress := (p + 1 : ℚ) / (t : ℚ),
                      tiles_processed := if real then p + 1 else 0,
                      tiles_total := if 0 < (if real then t else 0)
                                     then (if real then t else 0)
                                     else jrL.tiles_total } := by
    rw [set_job_progress_lookup, if_pos rfl, hjrL, Option.map_some']
  have hoth : ∀ {x : String}, ¬ id = x →
      alookup (set_job_progress s.jobs id ((p + 1 : ℚ) / (t : ℚ))
        (if real then p + 1 else 0) (if real then t else 0)).2 x = alookup s.jobs x := by
    intro x hx
    rw [set_job_progress_lookup, if_neg hx]
  constructor
  case tasksNodup => exact nodup_keys_taskUpd _ _ _ hinv.tasksNodup
  case taskSched =>
    intro id0 pc0 hm0
    rcases (mem_taskUpd_iff _ _ _ _).mp hm0 with heq | ⟨hm2, hne⟩
    · injection heq with e1 e2
      rw [e1]
      exact hinv.taskSched id (WPC.loop k u real p t) hm
    · exact hinv.taskSched id0 pc0 hm2
  case held =>
    intro id0 pc0 k0 hm0 hk0
    rcases (mem_taskUpd_iff _ _ _ _).mp hm0 with heq | ⟨hm2, hne⟩
    · injection heq with e1 e2
      subst e1
      rw [e2] at hk0
      simp only [heldKey, pcKey, Option.some.injEq] at hk0
      rw [← hk0]
      exact hinv.held id0 (WPC.loop k u real p t) k hm rfl
    · exact hinv.held id0 pc0 k0 hm2 hk0
  case keyJob =>
    intro id0 pc0 k0 hm0 hk0
    rcases (mem_taskUpd_iff _ _ _ _).mp hm0 with heq | ⟨hm2, hne⟩
    · injection heq with e1 e2
      subst e1
      rw [e2] at hk0
      simp only [pcKey, Option.some.injEq] at hk0
      refine ⟨_, hself, ?_⟩
      rw [← hk0, ← hkey]
      rfl
    · obtain ⟨jr0, hjr0, hek0⟩ := hinv.keyJob id0 pc0 k0 hm2 hk0
      exact ⟨jr0, by rw [hoth (fun e => hne e.symm)]; exact hjr0, hek0⟩
  case execRun =>
    intro id0 pc0 hm0 hex0
    rcases (mem_taskUpd_iff _ _ _ _).mp hm0 with heq | ⟨hm2, hne⟩
    · injection heq with e1 e2
      subst e1
      refine ⟨_, hself, ?_⟩
      exact hstL
    · obtain ⟨jr0, hjr0, hst0⟩ := hinv.execRun id0 pc0 hm2 hex0
      exact ⟨jr0, by rw [hoth (fun e => hne e.symm)]; exact hjr0, hst0⟩
  case run =>
    intro id0 jr0 hl hst
    by_cases he : id = id0
    · subst he
      rw [hself, Option.some.injEq] at hl
      refine ⟨WPC.loop k u real (p + 1) t,
        (mem_taskUpd_iff _ _ _ _).mpr (Or.inl rfl), rfl, ?_⟩
      simp only [heldKey, pcKey, Option.some.injEq]
      rw [← hl, ← hkey]
      rfl
    · rw [hoth he] at hl
      obtain ⟨pc0, hm0, hex0, hh0⟩ := hinv.run id0 jr0 hl hst
      have hne0 : (id0, pc0).1 ≠ id := fun e => he e.symm
      exact ⟨pc0, (mem_taskUpd_iff _ _ _ _).mpr (Or.inr ⟨hm0, hne0⟩), hex0, hh0⟩
  case loopInv =>
    intro id0 k0 u0 real0 p0 t0 hm0
    rcases (mem_taskUpd_iff _ _ _ _).mp hm0 with heq | ⟨hm2, hne⟩
    · injection heq with e1 e2
      subst e1
      injection e2 with ek eu er ep et
      subst ep
      subst et
      refine ⟨by omega, _, hself, ?_, ?_⟩
      · exact htL
      · intro h0
        dsimp only
        push_cast
        ring
    · obtain ⟨hpt0, jr0, hjr0, ht0, hpr0⟩ := hinv.loopInv id0 k0 u0 real0 p0 t0 hm2
      exact ⟨hpt0, jr0, by rw [hoth (fun e => hne e.symm)]; exact hjr0, ht0, hpr0⟩
  case finishPc =>
    intro id0 k0 u0 hm0
    rcases (mem_taskUpd_iff _ _ _ _).mp hm0 with heq | ⟨hm2, hne⟩
    · injection heq with e1 e2
      cases e2
    · obtain ⟨jr0, hjr0, hp0⟩ := hinv.finishPc id0 k0 u0 hm2
      exact ⟨jr0, by rw [hoth (fun e => hne e.symm)]; exact hjr0, hp0⟩
  case setPathPc =>
    intro id0 k0 u0 hm0
    rcases (mem_taskUpd_iff _ _ _ _).mp hm0 with heq | ⟨hm2, hne⟩
    · injection heq with e1 e2
      cases e2
    · obtain ⟨jr0, hjr0, hp0, hd0⟩ := hinv.setPathPc id0 k0 u0 hm2
      exact ⟨jr0, by rw [hoth (fun e => hne e.symm)]; exact hjr0, hp0, hd0⟩
  case sucPc =>
    intro id0 k0 u0 hm0
    rcases (mem_taskUpd_iff _ _ _ _).mp hm0 with heq | ⟨hm2, hne⟩
    · injection heq with e1 e2
      cases e2
    · obtain ⟨jr0, hjr0, hp0, hrp0, hd0⟩ := hinv.sucPc id0 k0 u0 hm2
      exact ⟨jr0, by rw [hoth (fun e => hne e.symm)]; exact hjr0, hp0, hrp0, hd0⟩
  case failPc1 =>
    intro id0 k0 u0 hm0
    rcases (mem_taskUpd_iff _ _ _ _).mp hm0 with heq | ⟨hm2, hne⟩
    · injection heq with e1 e2
      cases e2
    · exact hinv.failPc1 id0 k0 u0 hm2
  case failPc2 =>
    intro id0 k0 u0 hm0
    rcases (mem_taskUpd_iff _ _ _ _).mp hm0 with heq | ⟨hm2, hne⟩
    · injection heq with e1 e2
      cases e2
    · obtain ⟨jr0, hjr0, hrp0, hd0⟩ := hinv.failPc2 id0 k0 u0 hm2
      exact ⟨jr0, by rw [hoth (fun e => hne e.symm)]; exact hjr0, hrp0, hd0⟩
  case suc =>
    intro id0 jr0 hl hst
    by_cases he : id = id0
    · subst he
      rw [hself, Option.some.injEq] at hl
      have h2 : jrL.state = JobState.SUCCEEDED := by
        rw [← hl] at hst
        exact hst
      rw [hstL] at h2
      cases h2
    · rw [hoth he] at hl
      exact hinv.suc id0 jr0 hl hst
  case fai =>
    intro id0 jr0 hl hst
    by_cases he : id = id0
    · subst he
      rw [hself, Option.some.injEq] at hl
      have h2 : jrL.state = JobState.FAILED := by
        rw [← hl] at hst
        exact hst
      rw [hstL] at h2
      cases h2
    · rw [hoth he] at hl
      exact hinv.fai id0 jr0 hl hst

/-- Leaving the tile loop with all tiles processed: under positive tile
totals the last progress report was t/t = 1. -/
theorem step_loopDone_inv (env : String → Nat × Nat) (avail : Bool) (s : Sys)
    (id : String) (k : String × String) (u : String) (real : Bool) (p t : Nat)
    (hm : (id, WPC.loop k u real p t) ∈ s.tasks) (hge : ¬ p < t)
    (hinv : Inv env avail s) :
    Inv env avail { s with tasks := taskUpd s.tasks id (WPC.finish k u) } := by
  obtain ⟨hpt, jrL, hjrL, htL, hprL⟩ := hinv.loopInv id k u real p t hm
  have hteq : p = t := by omega
  have hprog : (∀ f, 0 < (env f).1 ∧ 0 < (env f).2) → jrL.progress = 1 := by
    intro henv
    have htpos : 0 < t := by
      rw [htL]
      exact tile_total_pos avail env jrL henv
    rw [hprL (by omega), hteq]
    exact div_self (Nat.cast_ne_zero.mpr (by omega))
  constructor
  case tasksNodup => exact nodup_keys_taskUpd _ _ _ hinv.tasksNodup
  case taskSched =>
    intro id0 pc0 hm0
    rcases (mem_taskUpd_iff _ _ _ _).mp hm0 with heq | ⟨hm2, hne⟩
    · injection heq with e1 e2
      rw [e1]
      exact hinv.taskSched id (WPC.loop k u real p t) hm
    · exact hinv.taskSched id0 pc0 hm2
  case held =>
    intro id0 pc0 k0 hm0 hk0
    rcases (mem_taskUpd_iff _ _ _ _).mp hm0 with heq | ⟨hm2, hne⟩
    · injection heq with e1 e2
      subst e1
      rw [e2] at hk0
      simp only [heldKey, pcKey, Option.some.injEq] at hk0
      rw [← hk0]
      exact hinv.held id0 (WPC.loop k u real p t) k hm rfl
    · exact hinv.held id0 pc0 k0 hm2 hk0
  case keyJob =>
    intro id0 pc0 k0 hm0 hk0
    rcases (mem_taskUpd_iff _ _ _ _).mp hm0 with heq | ⟨hm2, hne⟩
    · injection heq with e1 e2
      subst e1
      rw [e2] at hk0
      exact hinv.keyJob id0 (WPC.loop k u real p t) k0 hm hk0
    · exact hinv.keyJob id0 pc0 k0 hm2 hk0
  case execRun =>
    intro id0 pc0 hm0 hex0
    rcases (mem_taskUpd_iff _ _ _ _).mp hm0 with heq | ⟨hm2, hne⟩
    · injection heq with e1 e2
      subst e1
      exact hinv.execRun id0 (WPC.loop k u real p t) hm rfl
    · exact hinv.execRun id0 pc0 hm2 hex0
  case run =>
    intro id0 jr0 hl hst
    obtain ⟨pc0, hm0, hex0, hh0⟩ := hinv.run id0 jr0 hl hst
    by_cases he : id0 = id
    · subst he
      have hpc := mem_unique_of_keys_nodup hinv.tasksNodup hm0 hm
      refine ⟨WPC.finish k u, (mem_taskUpd_iff _ _ _ _).mpr (Or.inl rfl), rfl, ?_⟩
      rw [hpc] at hh0
      simp only [heldKey, pcKey, Option.some.injEq] at hh0 ⊢
      exact hh0
    · exact ⟨pc0, (mem_taskUpd_iff _ _ _ _).mpr (Or.inr ⟨hm0, he⟩), hex0, hh0⟩
  case loopInv =>
    intro id0 k0 u0 real0 p0 t0 hm0
    rcases (mem_taskUpd_iff _ _ _ _).mp hm0 with heq | ⟨hm2, hne⟩
    · injection heq with e1 e2
      cases e2
    · exact hinv.loopInv id0 k0 u0 real0 p0 t0 hm2
  case finishPc =>
    intro id0 k0 u0 hm0
    rcases (mem_taskUpd_iff _ _ _ _).mp hm0 with heq | ⟨hm2, hne⟩
    · injection heq with e1 e2
      subst e1
      exact ⟨jrL, hjrL, hprog⟩
    · exact hinv.finishPc id0 k0 u0 hm2
  case setPathPc =>
    intro id0 k0 u0 hm0
    rcases (mem_taskUpd_iff _ _ _ _).mp hm0 with heq | ⟨hm2, hne⟩
    · injection heq with e1 e2
      cases e2
    · exact hinv.setPathPc id0 k0 u0 hm2
  case sucPc =>
    intro id0 k0 u0 hm0
    rcases (mem_taskUpd_iff _ _ _ _).mp hm0 with heq | ⟨hm2, hne⟩
    · injection heq with e1 e2
      cases e2
    · exact hinv.sucPc id0 k0 u0 hm2
  case failPc1 =>
    intro id0 k0 u0 hm0
    rcases (mem_taskUpd_iff _ _ _ _).mp hm0 with heq | ⟨hm2, hne⟩
    · injection heq with e1 e2
      cases e2
    · exact hinv.failPc1 id0 k0 u0 hm2
  case failPc2 =>
    intro id0 k0 u0 hm0
    rcases (mem_taskUpd_iff _ _ _ _).mp hm0 with heq | ⟨hm2, hne⟩
    · injection heq with e1 e2
      cases e2
    · exact hinv.failPc2 id0 k0 u0 hm2
  case suc => exact hinv.suc
  case fai => exact hinv.fai

/-- An uncaught executor error: write the error artifact and transfer to the
failure handler.  Generic over the raising program point (tile loop or
finalization). -/
theorem step_raise_inv (env : String → Nat × Nat) (avail : Bool) (s : Sys)
    (id : String) (k : String × String) (u : String) (pcx : WPC)
    (hm : (id, pcx) ∈ s.tasks) (hex : isExec pcx = true)
    (hheldx : heldKey pcx = some k) (hpckx : pcKey pcx = some k)
    (hinv : Inv env avail s) :
    Inv env avail { s with disk := errorPath id :: s.disk,
                           tasks := taskUpd s.tasks id (WPC.failSetPath k u) } := by
  constructor
  case tasksNodup => exact nodup_keys_taskUpd _ _ _ hinv.tasksNodup
  case taskSched =>
    intro id0 pc0 hm0
    rcases (mem_taskUpd_iff _ _ _ _).mp hm0 with heq | ⟨hm2, hne⟩
    · injection heq with e1 e2
      rw [e1]
      exact hinv.taskSched id pcx hm
    · exact hinv.taskSched id0 pc0 hm2
  case held =>
    intro id0 pc0 k0 hm0 hk0
    rcases (mem_taskUpd_iff _ _ _ _).mp hm0 with heq | ⟨hm2, hne⟩
    · injection heq with e1 e2
      subst e1
      rw [e2] at hk0
      simp only [heldKey, pcKey, Option.some.injEq] at hk0
      rw [← hk0]
      exact hinv.held id0 pcx k hm hheldx
    · exact hinv.held id0 pc0 k0 hm2 hk0
  case keyJob =>
    intro id0 pc0 k0 hm0 hk0
    rcases (mem_taskUpd_iff _ _ _ _).mp hm0 with heq | ⟨hm2, hne⟩
    · injection heq with e1 e2
      subst e1
      rw [e2] at hk0
      simp only [pcKey, Option.some.injEq] at hk0
      rw [← hk0]
      exact hinv.keyJob id0 pcx k hm hpckx
    · exact hinv.keyJob id0 pc0 k0 hm2 hk0
  case execRun =>
    intro id0 pc0 hm0 hex0
    rcases (mem_taskUpd_iff _ _ _ _).mp hm0 with heq | ⟨hm2, hne⟩
    · injection heq with e1 e2
      subst e1
      exact hinv.execRun id0 pcx hm hex
    · exact hinv.execRun id0 pc0 hm2 hex0
  case run =>
    intro id0 jr0 hl hst
    obtain ⟨pc0, hm0, hex0, hh0⟩ := hinv.run id0 jr0 hl hst
    by_cases he : id0 = id
    · subst he
      have hpc := mem_unique_of_keys_nodup hinv.tasksNodup hm0 hm
      refine ⟨WPC.failSetPath k u, (mem_taskUpd_iff _ _ _ _).mpr (Or.inl rfl), rfl, ?_⟩
      rw [hpc, hheldx] at hh0
      simp only [heldKey, pcKey]
      exact hh0
    · exact ⟨pc0, (mem_taskUpd_iff _ _ _ _).mpr (Or.inr ⟨hm0, he⟩), hex0, hh0⟩
  case loopInv =>
    intro id0 k0 u0 real0 p0 t0 hm0
    rcases (mem_taskUpd_iff _ _ _ _).mp hm0 with heq | ⟨hm2, hne⟩
    · injection heq with e1 e2
      cases e2
    · exact hinv.loopInv id0 k0 u0 real0 p0 t0 hm2
  case finishPc =>
    intro id0 k0 u0 hm0
    rcases (mem_taskUpd_iff _ _ _ _).mp hm0 with heq | ⟨hm2, hne⟩
    · injection heq with e1 e2
      cases e2
    · exact hinv.finishPc id0 k0 u0 hm2
  case setPathPc =>
    intro id0 k0 u0 hm0
    rcases (mem_taskUpd_iff _ _ _ _).mp hm0 with heq | ⟨hm2, hne⟩
    · injection heq with e1 e2
      cases e2
    · obtain ⟨jr0, hjr0, hp0, hd0⟩ := hinv.setPathPc id0 k0 u0 hm2
      exact ⟨jr0, hjr0, hp0, List.mem_cons_of_mem _ hd0⟩
  case sucPc =>
    intro id0 k0 u0 hm0
    rcases (mem_taskUpd_iff _ _ _ _).mp hm0 with heq | ⟨hm2, hne⟩
    · injection heq with e1 e2
      cases e2
    · obtain ⟨jr0, hjr0, hp0, hrp0, hd0⟩ := hinv.sucPc id0 k0 u0 hm2
      exact ⟨jr0, hjr0, hp0, hrp0, List.mem_cons_of_mem _ hd0⟩
  case failPc1 =>
    intro id0 k0 u0 hm0
    rcases (mem_taskUpd_iff _ _ _ _).mp hm0 with heq | ⟨hm2, hne⟩
    · injection heq with e1 e2
      rw [e1]
      exact List.mem_cons_self _ _
    · exact List.mem_cons_of_mem _ (hinv.failPc1 id0 k0 u0 hm2)
  case failPc2 =>
    intro id0 k0 u0 hm0
    rcases (mem_taskUpd_iff _ _ _ _).mp hm0 with heq | ⟨hm2, hne⟩
    · injection heq with e1 e2
      cases e2
    · obtain ⟨jr0, hjr0, hrp0, hd0⟩ := hinv.failPc2 id0 k0 u0 hm2
      exact ⟨jr0, hjr0, hrp0, List.mem_cons_of_mem _ hd0⟩
  case suc =>
    intro id0 jr0 hl hst
    obtain ⟨h1, h2, h3⟩ := hinv.suc id0 jr0 hl hst
    exact ⟨h1, h2, List.mem_cons_of_mem _ h3⟩
  case fai =>
    intro id0 jr0 hl hst
    obtain ⟨h1, h2⟩ := hinv.fai id0 jr0 hl hst
    exact ⟨h1, List.mem_cons_of_mem _ h2⟩

/-- Finalization succeeded: the manifest (with the preview) is written to disk
and the task proceeds to publish the result path. -/
theorem step_finishOk_inv (env : String → Nat × Nat) (avail : Bool) (s : Sys)
    (id : String) (k : String × String) (u : String)
    (hm : (id, WPC.finish k u) ∈ s.tasks) (hinv : Inv env avail s) :
    Inv env avail { s with disk := manifestPath id :: s.disk,
                           tasks := taskUpd s.tasks id (WPC.setPath k u) } := by
  constructor
  case tasksNodup => exact nodup_keys_taskUpd _ _ _ hinv.tasksNodup
  case taskSched =>
    intro id0 pc0 hm0
    rcases (mem_taskUpd_iff _ _ _ _).mp hm0 with heq | ⟨hm2, hne⟩
    · injection heq with e1 e2
      rw [e1]
      exact hinv.taskSched id (WPC.finish k u) hm
    · exact hinv.taskSched id0 pc0 hm2
  case held =>
    intro id0 pc0 k0 hm0 hk0
    rcases (mem_taskUpd_iff _ _ _ _).mp hm0 with heq | ⟨hm2, hne⟩
    · injection heq with e1 e2
      subst e1
      rw [e2] at hk0
      simp only [heldKey, pcKey, Option.some.injEq] at hk0
      rw [← hk0]
      exact hinv.held id0 (WPC.finish k u) k hm rfl
    · exact hinv.held id0 pc0 k0 hm2 hk0
  case keyJob =>
    intro id0 pc0 k0 hm0 hk0
    rcases (mem_taskUpd_iff _ _ _ _).mp hm0 with heq | ⟨hm2, hne⟩
    · injection heq with e1 e2
      subst e1
      rw [e2] at hk0
      exact hinv.keyJob id0 (WPC.finish k u) k0 hm hk0
    · exact hinv.keyJob id0 pc0 k0 hm2 hk0
  case execRun =>
    intro id0 pc0 hm0 hex0
    rcases (mem_taskUpd_iff _ _ _ _).mp hm0 with heq | ⟨hm2, hne⟩
    · injection heq with e1 e2
      subst e1
      exact hinv.execRun id0 (WPC.finish k u) hm rfl
    · exact hinv.execRun id0 pc0 hm2 hex0
  case run =>
    intro id0 jr0 hl hst
    obtain ⟨pc0, hm0, hex0, hh0⟩ := hinv.run id0 jr0 hl hst
    by_cases he : id0 = id
    · subst he
      have hpc := mem_unique_of_keys_nodup hinv.tasksNodup hm0 hm
      refine ⟨WPC.setPath k u, (mem_taskUpd_iff _ _ _ _).mpr (Or.inl rfl), rfl, ?_⟩
      rw [hpc] at hh0
      simp only [heldKey, pcKey, Option.some.injEq] at hh0 ⊢
      exact hh0
    · exact ⟨pc0, (mem_taskUpd_iff _ _ _ _).mpr (Or.inr ⟨hm0, he⟩), hex0, hh0⟩
  case loopInv =>
    intro id0 k0 u0 real0 p0 t0 hm0
    rcases (mem_taskUpd_iff _ _ _ _).mp hm0 with heq | ⟨hm2, hne⟩
    · injection heq with e1 e2
      cases e2
    · exact hinv.loopInv id0 k0 u0 real0 p0 t0 hm2
  case finishPc =>
    intro id0 k0 u0 hm0
    rcases (mem_taskUpd_iff _ _ _ _).mp hm0 with heq | ⟨hm2, hne⟩
    · injection heq with e1 e2
      cases e2
    · exact hinv.finishPc id0 k0 u0 hm2
  case setPathPc =>
    intro id0 k0 u0 hm0
    rcases (mem_taskUpd_iff _ _ _ _).mp hm0 with heq | ⟨hm2, hne⟩
    · injection heq with e1 e2
      subst e1
      obtain ⟨jr0, hjr0, hp0⟩ := hinv.finishPc id0 k u hm
      exact ⟨jr0, hjr0, hp0, List.mem_cons_self _ _⟩
    · obtain ⟨jr0, hjr0, hp0, hd0⟩ := hinv.setPathPc id0 k0 u0 hm2
      exact ⟨jr0, hjr0, hp0, List.mem_cons_of_mem _ hd0⟩
  case sucPc =>
    intro id0 k0 u0 hm0
    rcases (mem_taskUpd_iff _ _ _ _).mp hm0 with heq | ⟨hm2, hne⟩
    · injection heq with e1 e2
      cases e2
    · obtain ⟨jr0, hjr0, hp0, hrp0, hd0⟩ := hinv.sucPc id0 k0 u0 hm2
      exact ⟨jr0, hjr0, hp0, hrp0, List.mem_cons_of_mem _ hd0⟩
  case failPc1 =>
    intro id0 k0 u0 hm0
    rcases (mem_taskUpd_iff _ _ _ _).mp hm0 with heq | ⟨hm2, hne⟩
    · injection heq with e1 e2
      cases e2
    · exact List.mem_cons_of_mem _ (hinv.failPc1 id0 k0 u0 hm2)
  case failPc2 =>
    intro id0 k0 u0 hm0
    rcases (mem_taskUpd_iff _ _ _ _).mp hm0 with heq | ⟨hm2, hne⟩
    · injection heq with e1 e2
      cases e2
    · obtain ⟨jr0, hjr0, hrp0, hd0⟩ := hinv.failPc2 id0 k0 u0 hm2
      exact ⟨jr0, hjr0, hrp0, List.mem_cons_of_mem _ hd0⟩
  case suc =>
    intro id0 jr0 hl hst
    obtain ⟨h1, h2, h3⟩ := hinv.suc id0 jr0 hl hst
    exact ⟨h1, h2, List.mem_cons_of_mem _ h3⟩
  case fai =>
    intro id0 jr0 hl hst
    obtain ⟨h1, h2⟩ := hinv.fai id0 jr0 hl hst
    exact ⟨h1, List.mem_cons_of_mem _ h2⟩

/-- Publish the manifest path on the job record, just before the SUCCEEDED
transition. -/
theorem step_setPathStep_inv (env : String → Nat × Nat) (avail : Bool) (s : Sys)
    (id : String) (k : String × String) (u : String)
    (hm : (id, WPC.setPath k u) ∈ s.tasks) (hinv : Inv env avail s) :
    Inv env avail { s with
      jobs := (set_job_result_path s.jobs id (manifestPath id)).2,
      tasks := taskUpd s.tasks id (WPC.setSucceeded k u) } := by
  obtain ⟨jrP, hjrP, hp1, hdP⟩ := hinv.setPathPc id k u hm
  have hstP : jrP.state = JobState.RUNNING := by
    obtain ⟨jrE, hjrE, hstE⟩ := hinv.execRun id (WPC.setPath k u) hm rfl
    rw [hjrP] at hjrE
    injection hjrE with hh
    rw [hh]
    exact hstE
  have hkey : effKey jrP = k := by
    obtain ⟨jr2, hjr2, hek⟩ := hinv.keyJob id (WPC.setPath k u) k hm rfl
    rw [hjrP] at hjr2
    injection hjr2 with hh
    rw [hh]
    exact hek
  have hself : alookup (set_job_result_path s.jobs id (manifestPath id)).2 id =
      some { jrP with result_path := some (manifestPath id) } := by
    rw [set_job_result_path_lookup, if_pos rfl, hjrP, Option.map_some']
  have hoth : ∀ {x : String}, ¬ id = x →
      alookup (set_job_result_path s.jobs id (manifestPath id)).2 x = alookup s.jobs x := by
    intro x hx
    rw [set_job_result_path_lookup, if_neg hx]
  constructor
  case tasksNodup => exact nodup_keys_taskUpd _ _ _ hinv.tasksNodup
  case taskSched =>
    intro id0 pc0 hm0
    rcases (mem_taskUpd_iff _ _ _ _).mp hm0 with heq | ⟨hm2, hne⟩
    · injection heq with e1 e2
      rw [e1]
      exact hinv.taskSched id (WPC.setPath k u) hm
    · exact hinv.taskSched id0 pc0 hm2
  case held =>
    intro id0 pc0 k0 hm0 hk0
    rcases (mem_taskUpd_iff _ _ _ _).mp hm0 with heq | ⟨hm2, hne⟩
    · injection heq with e1 e2
      subst e1
      rw [e2] at hk0
      simp only [heldKey, pcKey, Option.some.injEq] at hk0
      rw [← hk0]
      exact hinv.held id0 (WPC.setPath k u) k hm rfl
    · exact hinv.held id0 pc0 k0 hm2 hk0
  case keyJob =>
    intro id0 pc0 k0 hm0 hk0
    rcases (mem_taskUpd_iff _ _ _ _).mp hm0 with heq | ⟨hm2, hne⟩
    · injection heq with e1 e2
      subst e1
      rw [e2] at hk0
      simp only [pcKey, Option.some.injEq] at hk0
      refine ⟨_, hself, ?_⟩
      rw [← hk0, ← hkey]
      rfl
    · obtain ⟨jr0, hjr0, hek0⟩ := hinv.keyJob id0 pc0 k0 hm2 hk0
      exact ⟨jr0, by rw [hoth (fun e => hne e.symm)]; exact hjr0, hek0⟩
  case execRun =>
    intro id0 pc0 hm0 hex0
    rcases (mem_taskUpd_iff _ _ _ _).mp hm0 with heq | ⟨hm2, hne⟩
    · injection heq with e1 e2
      subst e1
      exact ⟨_, hself, hstP⟩
    · obtain ⟨jr0, hjr0, hst0⟩ := hinv.execRun id0 pc0 hm2 hex0
      exact ⟨jr0, by rw [hoth (fun e => hne e.symm)]; exact hjr0, hst0⟩
  case run =>
    intro id0 jr0 hl hst
    by_cases he : id = id0
    · subst he
      rw [hself, Option.some.injEq] at hl
      refine ⟨WPC.setSucceeded k u,
        (mem_taskUpd_iff _ _ _ _).mpr (Or.inl rfl), rfl, ?_⟩
      simp only [heldKey, pcKey, Option.some.injEq]
      rw [← hl, ← hkey]
      rfl
    · rw [hoth he] at hl
      obtain ⟨pc0, hm0, hex0, hh0⟩ := hinv.run id0 jr0 hl hst
      have hne0 : (id0, pc0).1 ≠ id := fun e => he e.symm
      exact ⟨pc0, (mem_taskUpd_iff _ _ _ _).mpr (Or.inr ⟨hm0, hne0⟩), hex0, hh0⟩
  case loopInv =>
    intro id0 k0 u0 real0 p0 t0 hm0
    rcases (mem_taskUpd_iff _ _ _ _).mp hm0 with heq | ⟨hm2, hne⟩
    · injection heq with e1 e2
      cases e2
    · obtain ⟨hpt0, jr0, hjr0, ht0, hpr0⟩ := hinv.loopInv id0 k0 u0 real0 p0 t0 hm2
      exact ⟨hpt0, jr0, by rw [hoth (fun e => hne e.symm)]; exact hjr0, ht0, hpr0⟩
  case finishPc =>
    intro id0 k0 u0 hm0
    rcases (mem_taskUpd_iff _ _ _ _).mp hm0 with heq | ⟨hm2, hne⟩
    · injection heq with e1 e2
      cases e2
    · obtain ⟨jr0, hjr0, hp0⟩ := hinv.finishPc id0 k0 u0 hm2
      exact ⟨jr0, by rw [hoth (fun e => hne e.symm)]; exact hjr0, hp0⟩
  case setPathPc =>
    intro id0 k0 u0 hm0
    rcases (mem_taskUpd_iff _ _ _ _).mp hm0 with heq | ⟨hm2, hne⟩
    · injection heq with e1 e2
      cases e2
    · obtain ⟨jr0, hjr0, hp0, hd0⟩ := hinv.setPathPc id0 k0 u0 hm2
      exact ⟨jr0, by rw [hoth (fun e => hne e.symm)]; exact hjr0, hp0, hd0⟩
  case sucPc =>
    intro id0 k0 u0 hm0
    rcases (mem_taskUpd_iff _ _ _ _).mp hm0 with heq | ⟨hm2, hne⟩
    · injection heq with e1 e2
      subst e1
      injection e2 with ek eu
      subst ek
      refine ⟨_, hself, hp1, rfl, hdP⟩
    · obtain ⟨jr0, hjr0, hp0, hrp0, hd0⟩ := hinv.sucPc id0 k0 u0 hm2
      exact ⟨jr0, by rw [hoth (fun e => hne e.symm)]; exact hjr0, hp0, hrp0, hd0⟩
  case failPc1 =>
    intro id0 k0 u0 hm0
    rcases (mem_taskUpd_iff _ _ _ _).mp hm0 with heq | ⟨hm2, hne⟩
    · injection heq with e1 e2
      cases e2
    · exact hinv.failPc1 id0 k0 u0 hm2
  case failPc2 =>
    intro id0 k0 u0 hm0
    rcases (mem_taskUpd_iff _ _ _ _).mp hm0 with heq | ⟨hm2, hne⟩
    · injection heq with e1 e2
      cases e2
    · obtain ⟨jr0, hjr0, hrp0, hd0⟩ := hinv.failPc2 id0 k0 u0 hm2
      exact ⟨jr0, by rw [hoth (fun e => hne e.symm)]; exact hjr0, hrp0, hd0⟩
  case suc =>
    intro id0 jr0 hl hst
    by_cases he : id = id0
    · subst he
      rw [hself, Option.some.injEq] at hl
      have h2 : jrP.state = JobState.SUCCEEDED := by
        rw [← hl] at hst
        exact hst
      rw [hstP] at h2
      cases h2
    · rw [hoth he] at hl
      exact hinv.suc id0 jr0 hl hst
  case fai =>
    intro id0 jr0 hl hst
    by_cases he : id = id0
    · subst he
      rw [hself, Option.some.injEq] at hl
      have h2 : jrP.state = JobState.FAILED := by
        rw [← hl] at hst
        exact hst
      rw [hstP] at h2
      cases h2
    · rw [hoth he] at hl
      exact hinv.fai id0 jr0 hl hst

/-- The failure handler publishes the error artifact path before the FAILED
transition. -/
theorem step_failSetPathStep_inv (env : String → Nat × Nat) (avail : Bool) (s : Sys)
    (id : String) (k : String × String) (u : String)
    (hm : (id, WPC.failSetPath k u) ∈ s.tasks) (hinv : Inv env avail s) :
    Inv env avail { s with
      jobs := (set_job_result_path s.jobs id (errorPath id)).2,
      tasks := taskUpd s.tasks id (WPC.failSetState k u) } := by
  obtain ⟨jrF, hjrF, hstF⟩ := hinv.execRun id (WPC.failSetPath k u) hm rfl
  have hdF : errorPath id ∈ s.disk := hinv.failPc1 id k u hm
  have hkey : effKey jrF = k := by
    obtain ⟨jr2, hjr2, hek⟩ := hinv.keyJob id (WPC.failSetPath k u) k hm rfl
    rw [hjrF] at hjr2
    injection hjr2 with hh
    rw [hh]
    exact hek
  have hself : alookup (set_job_result_path s.jobs id (errorPath id)).2 id =
      some { jrF with result_path := some (errorPath id) } := by
    rw [set_job_result_path_lookup, if_pos rfl, hjrF, Option.map_some']
  have hoth : ∀ {x : String}, ¬ id = x →
      alookup (set_job_result_path s.jobs id (errorPath id)).2 x = alookup s.jobs x := by
    intro x hx
    rw [set_job_result_path_lookup, if_neg hx]
  constructor
  case tasksNodup => exact nodup_keys_taskUpd _ _ _ hinv.tasksNodup
  case taskSched =>
    intro id0 pc0 hm0
    rcases (mem_taskUpd_iff _ _ _ _).mp hm0 with heq | ⟨hm2, hne⟩
    · injection heq with e1 e2
      rw [e1]
      exact hinv.taskSched id (WPC.failSetPath k u) hm
    · exact hinv.taskSched id0 pc0 hm2
  case held =>
    intro id0 pc0 k0 hm0 hk0
    rcases (mem_taskUpd_iff _ _ _ _).mp hm0 with heq | ⟨hm2, hne⟩
    · injection heq with e1 e2
      subst e1
      rw [e2] at hk0
      simp only [heldKey, pcKey, Option.some.injEq] at hk0
      rw [← hk0]
      exact hinv.held id0 (WPC.failSetPath k u) k hm rfl
    · exact hinv.held id0 pc0 k0 hm2 hk0
  case keyJob =>
    intro id0 pc0 k0 hm0 hk0
    rcases (mem_taskUpd_iff _ _ _ _).mp hm0 with heq | ⟨hm2, hne⟩
    · injection heq with e1 e2
      subst e1
      rw [e2] at hk0
      simp only [pcKey, Option.some.injEq] at hk0
      refine ⟨_, hself, ?_⟩
      rw [← hk0, ← hkey]
      rfl
    · obtain ⟨jr0, hjr0, hek0⟩ := hinv.keyJob id0 pc0 k0 hm2 hk0
      exact ⟨jr0, by rw [hoth (fun e => hne e.symm)]; exact hjr0, hek0⟩
  case execRun =>
    intro id0 pc0 hm0 hex0
    rcases (mem_taskUpd_iff _ _ _ _).mp hm0 with heq | ⟨hm2, hne⟩
    · injection heq with e1 e2
      subst e1
      exact ⟨_, hself, hstF⟩
    · obtain ⟨jr0, hjr0, hst0⟩ := hinv.execRun id0 pc0 hm2 hex0
      exact ⟨jr0, by rw [hoth (fun e => hne e.symm)]; exact hjr0, hst0⟩
  case run =>
    intro id0 jr0 hl hst
    by_cases he : id = id0
    · subst he
      rw [hself, Option.some.injEq] at hl
      refine ⟨WPC.failSetState k u,
        (mem_taskUpd_iff _ _ _ _).mpr (Or.inl rfl), rfl, ?_⟩
      simp only [heldKey, pcKey, Option.some.injEq]
      rw [← hl, ← hkey]
      rfl
    · rw [hoth he] at hl
      obtain ⟨pc0, hm0, hex0, hh0⟩ := hinv.run id0 jr0 hl hst
      have hne0 : (id0, pc0).1 ≠ id := fun e => he e.symm
      exact ⟨pc0, (mem_taskUpd_iff _ _ _ _).mpr (Or.inr ⟨hm0, hne0⟩), hex0, hh0⟩
  case loopInv =>
    intro id0 k0 u0 real0 p0 t0 hm0
    rcases (mem_taskUpd_iff _ _ _ _).mp hm0 with heq | ⟨hm2, hne⟩
    · injection heq with e1 e2
      cases e2
    · obtain ⟨hpt0, jr0, hjr0, ht0, hpr0⟩ := hinv.loopInv id0 k0 u0 real0 p0 t0 hm2
      exact ⟨hpt0, jr0, by rw [hoth (fun e => hne e.symm)]; exact hjr0, ht0, hpr0⟩
  case finishPc =>
    intro id0 k0 u0 hm0
    rcases (mem_taskUpd_iff _ _ _ _).mp hm0 with heq | ⟨hm2, hne⟩
    · injection heq with e1 e2
      cases e2
    · obtain ⟨jr0, hjr0, hp0⟩ := hinv.finishPc id0 k0 u0 hm2
      exact ⟨jr0, by rw [hoth (fun e => hne e.symm)]; exact hjr0, hp0⟩
  case setPathPc =>
    intro id0 k0 u0 hm0
    rcases (mem_taskUpd_iff _ _ _ _).mp hm0 with heq | ⟨hm2, hne⟩
    · injection heq with e1 e2
      cases e2
    · obtain ⟨jr0, hjr0, hp0, hd0⟩ := hinv.setPathPc id0 k0 u0 hm2
      exact ⟨jr0, by rw [hoth (fun e => hne e.symm)]; exact hjr0, hp0, hd0⟩
  case sucPc =>
    intro id0 k0 u0 hm0
    rcases (mem_taskUpd_iff _ _ _ _).mp hm0 with heq | ⟨hm2, hne⟩
    · injection heq with e1 e2
      cases e2
    · obtain ⟨jr0, hjr0, hp0, hrp0, hd0⟩ := hinv.sucPc id0 k0 u0 hm2
      exact ⟨jr0, by rw [hoth (fun e => hne e.symm)]; exact hjr0, hp0, hrp0, hd0⟩
  case failPc1 =>
    intro id0 k0 u0 hm0
    rcases (mem_taskUpd_iff _ _ _ _).mp hm0 with heq | ⟨hm2, hne⟩
    · injection heq with e1 e2
      cases e2
    · exact hinv.failPc1 id0 k0 u0 hm2
  case failPc2 =>
    intro id0 k0 u0 hm0
    rcases (mem_taskUpd_iff _ _ _ _).mp hm0 with heq | ⟨hm2, hne⟩
    · injection heq with e1 e2
      subst e1
      injection e2 with ek eu
      subst ek
      exact ⟨_, hself, rfl, hdF⟩
    · obtain ⟨jr0, hjr0, hrp0, hd0⟩ := hinv.failPc2 id0 k0 u0 hm2
      exact ⟨jr0, by rw [hoth (fun e => hne e.symm)]; exact hjr0, hrp0, hd0⟩
  case suc =>
    intro id0 jr0 hl hst
    by_cases he : id = id0
    · subst he
      rw [hself, Option.some.injEq] at hl
      have h2 : jrF.state = JobState.SUCCEEDED := by
        rw [← hl] at hst
        exact hst
      rw [hstF] at h2
      cases h2
    · rw [hoth he] at hl
      exact hinv.suc id0 jr0 hl hst
  case fai =>
    intro id0 jr0 hl hst
    by_cases he : id = id0
    · subst he
      rw [hself, Option.some.injEq] at hl
      have h2 : jrF.state = JobState.FAILED := by
        rw [← hl] at hst
        exact hst
      rw [hstF] at h2
      cases h2
    · rw [hoth he] at hl
      exact hinv.fai id0 jr0 hl hst

/-- Terminal transition to SUCCEEDED together with the worker unwind:
counters, branch lock, task and scheduled entry are all released. -/
theorem step_succeed_exit_inv (env : String → Nat × Nat) (avail : Bool) (s : Sys)
    (id : String) (k : String × String) (u : String) (aw sem : Nat)
    (hm : (id, WPC.setSucceeded k u) ∈ s.tasks) (hinv : Inv env avail s) :
    Inv env avail { s with
      jobs := (update_job_state s.jobs id JobState.SUCCEEDED).2,
      activeWorkers := aw, semAvail := sem,
      branchOwner := aremove s.branchOwner k,
      tasks := aremove s.tasks id,
      scheduled := sremove s.scheduled id } := by
  obtain ⟨jrS, hjrS, hp1, hrp, hd⟩ := hinv.sucPc id k u hm
  have hself : alookup (update_job_state s.jobs id JobState.SUCCEEDED).2 id =
      some { jrS with state := JobState.SUCCEEDED } := by
    rw [update_job_state_lookup, if_pos rfl, hjrS, Option.map_some']
  have hoth : ∀ {x : String}, ¬ id = x →
      alookup (update_job_state s.jobs id JobState.SUCCEEDED).2 x = alookup s.jobs x := by
    intro x hx
    rw [update_job_state_lookup, if_neg hx]
  constructor
  case tasksNodup => exact nodup_keys_aremove _ _ hinv.tasksNodup
  case taskSched =>
    intro id0 pc0 hm0
    obtain ⟨hm2, hne⟩ := (mem_aremove_iff _ _ _).mp hm0
    exact (mem_sremove_iff _ _ _).mpr ⟨hinv.taskSched id0 pc0 hm2, hne⟩
  case held =>
    intro id0 pc0 k0 hm0 hk0
    obtain ⟨hm2, hne⟩ := (mem_aremove_iff _ _ _).mp hm0
    by_cases hkk : k = k0
    · subst hkk
      have h1 := hinv.held id0 pc0 k hm2 hk0
      have h2 := hinv.held id (WPC.setSucceeded k u) k hm rfl
      rw [h2, Option.some.injEq] at h1
      exact absurd h1.symm hne
    · rw [alookup_aremove, if_neg hkk]
      exact hinv.held id0 pc0 k0 hm2 hk0
  case keyJob =>
    intro id0 pc0 k0 hm0 hk0
    obtain ⟨hm2, hne⟩ := (mem_aremove_iff _ _ _).mp hm0
    obtain ⟨jr0, hjr0, hek0⟩ := hinv.keyJob id0 pc0 k0 hm2 hk0
    exact ⟨jr0, by rw [hoth (fun e => hne e.symm)]; exact hjr0, hek0⟩
  case execRun =>
    intro id0 pc0 hm0 hex0
    obtain ⟨hm2, hne⟩ := (mem_aremove_iff _ _ _).mp hm0
    obtain ⟨jr0, hjr0, hst0⟩ := hinv.execRun id0 pc0 hm2 hex0
    exact ⟨jr0, by rw [hoth (fun e => hne e.symm)]; exact hjr0, hst0⟩
  case run =>
    intro id0 jr0 hl hst
    by_cases he : id = id0
    · subst he
      rw [hself, Option.some.injEq] at hl
      rw [← hl] at hst
      simp at hst
    · rw [hoth he] at hl
      obtain ⟨pc0, hm0, hex0, hh0⟩ := hinv.run id0 jr0 hl hst
      have hne0 : (id0, pc0).1 ≠ id := fun e => he e.symm
      exact ⟨pc0, (mem_aremove_iff _ _ _).mpr ⟨hm0, hne0⟩, hex0, hh0⟩
  case loopInv =>
    intro id0 k0 u0 real0 p0 t0 hm0
    obtain ⟨hm2, hne⟩ := (mem_aremove_iff _ _ _).mp hm0
    obtain ⟨hpt0, jr0, hjr0, ht0, hpr0⟩ := hinv.loopInv id0 k0 u0 real0 p0 t0 hm2
    exact ⟨hpt0, jr0, by rw [hoth (fun e => hne e.symm)]; exact hjr0, ht0, hpr0⟩
  case finishPc =>
    intro id0 k0 u0 hm0
    obtain ⟨hm2, hne⟩ := (mem_aremove_iff _ _ _).mp hm0
    obtain ⟨jr0, hjr0, hp0⟩ := hinv.finishPc id0 k0 u0 hm2
    exact ⟨jr0, by rw [hoth (fun e => hne e.symm)]; exact hjr0, hp0⟩
  case setPathPc =>
    intro id0 k0 u0 hm0
    obtain ⟨hm2, hne⟩ := (mem_aremove_iff _ _ _).mp hm0
    obtain ⟨jr0, hjr0, hp0, hd0⟩ := hinv.setPathPc id0 k0 u0 hm2
    exact ⟨jr0, by rw [hoth (fun e => hne e.symm)]; exact hjr0, hp0, hd0⟩
  case sucPc =>
    intro id0 k0 u0 hm0
    obtain ⟨hm2, hne⟩ := (mem_aremove_iff _ _ _).mp hm0
    obtain ⟨jr0, hjr0, hp0, hrp0, hd0⟩ := hinv.sucPc id0 k0 u0 hm2
    exact ⟨jr0, by rw [hoth (fun e => hne e.symm)]; exact hjr0, hp0, hrp0, hd0⟩
  case failPc1 =>
    intro id0 k0 u0 hm0
    obtain ⟨hm2, hne⟩ := (mem_aremove_iff _ _ _).mp hm0
    exact hinv.failPc1 id0 k0 u0 hm2
  case failPc2 =>
    intro id0 k0 u0 hm0
    obtain ⟨hm2, hne⟩ := (mem_aremove_iff _ _ _).mp hm0
    obtain ⟨jr0, hjr0, hrp0, hd0⟩ := hinv.failPc2 id0 k0 u0 hm2
    exact ⟨jr0, by rw [hoth (fun e => hne e.symm)]; exact hjr0, hrp0, hd0⟩
  case suc =>
    intro id0 jr0 hl hst
    by_cases he : id = id0
    · subst he
      rw [hself, Option.some.injEq] at hl
      rw [← hl]
      exact ⟨hp1, hrp, hd⟩
    · rw [hoth he] at hl
      exact hinv.suc id0 jr0 hl hst
  case fai =>
    intro id0 jr0 hl hst
    by_cases he : id = id0
    · subst he
      rw [hself, Option.some.injEq] at hl
      rw [← hl] at hst
      simp at hst
    · rw [hoth he] at hl
      exact hinv.fai id0 jr0 hl hst

/-- Terminal transition to FAILED together with the worker unwind. -/
theorem step_fail_exit_inv (env : String → Nat × Nat) (avail : Bool) (s : Sys)
    (id : String) (k : String × String) (u : String) (aw sem : Nat)
    (hm : (id, WPC.failSetState k u) ∈ s.tasks) (hinv : Inv env avail s) :
    Inv env avail { s with
      jobs := (update_job_state s.jobs id JobState.FAILED).2,
      activeWorkers := aw, semAvail := sem,
      branchOwner := aremove s.branchOwner k,
      tasks := aremove s.tasks id,
      scheduled := sremove s.scheduled id } := by
  obtain ⟨jrF, hjrF, hrp, hd⟩ := hinv.failPc2 id k u hm
  have hself : alookup (update_job_state s.jobs id JobState.FAILED).2 id =
      some { jrF with state := JobState.FAILED } := by
    rw [update_job_state_lookup, if_pos rfl, hjrF, Option.map_some']
  have hoth : ∀ {x : String}, ¬ id = x →
      alookup (update_job_state s.jobs id JobState.FAILED).2 x = alookup s.jobs x := by
    intro x hx
    rw [update_job_state_lookup, if_neg hx]
  constructor
  case tasksNodup => exact nodup_keys_aremove _ _ hinv.tasksNodup
  case taskSched =>
    intro id0 pc0 hm0
    obtain ⟨hm2, hne⟩ := (mem_aremove_iff _ _ _).mp hm0
    exact (mem_sremove_iff _ _ _).mpr ⟨hinv.taskSched id0 pc0 hm2, hne⟩
  case held =>
    intro id0 pc0 k0 hm0 hk0
    obtain ⟨hm2, hne⟩ := (mem_aremove_iff _ _ _).mp hm0
    by_cases hkk : k = k0
    · subst hkk
      have h1 := hinv.held id0 pc0 k hm2 hk0
      have h2 := hinv.held id (WPC.failSetState k u) k hm rfl
      rw [h2, Option.some.injEq] at h1
      exact absurd h1.symm hne
    · rw [alookup_aremove, if_neg hkk]
      exact hinv.held id0 pc0 k0 hm2 hk0
  case keyJob =>
    intro id0 pc0 k0 hm0 hk0
    obtain ⟨hm2, hne⟩ := (mem_aremove_iff _ _ _).mp hm0
    obtain ⟨jr0, hjr0, hek0⟩ := hinv.keyJob id0 pc0 k0 hm2 hk0
    exact ⟨jr0, by rw [hoth (fun e => hne e.symm)]; exact hjr0, hek0⟩
  case execRun =>
    intro id0 pc0 hm0 hex0
    obtain ⟨hm2, hne⟩ := (mem_aremove_iff _ _ _).mp hm0
    obtain ⟨jr0, hjr0, hst0⟩ := hinv.execRun id0 pc0 hm2 hex0
    exact ⟨jr0, by rw [hoth (fun e => hne e.symm)]; exact hjr0, hst0⟩
  case run =>
    intro id0 jr0 hl hst
    by_cases he : id = id0
    · subst he
      rw [hself, Option.some.injEq] at hl
      rw [← hl] at hst
      simp at hst
    · rw [hoth he] at hl
      obtain ⟨pc0, hm0, hex0, hh0⟩ := hinv.run id0 jr0 hl hst
      have hne0 : (id0, pc0).1 ≠ id := fun e => he e.symm
      exact ⟨pc0, (mem_aremove_iff _ _ _).mpr ⟨hm0, hne0⟩, hex0, hh0⟩
  case loopInv =>
    intro id0 k0 u0 real0 p0 t0 hm0
    obtain ⟨hm2, hne⟩ := (mem_aremove_iff _ _ _).mp hm0
    obtain ⟨hpt0, jr0, hjr0, ht0, hpr0⟩ := hinv.loopInv id0 k0 u0 real0 p0 t0 hm2
    exact ⟨hpt0, jr0, by rw [hoth (fun e => hne e.symm)]; exact hjr0, ht0, hpr0⟩
  case finishPc =>
    intro id0 k0 u0 hm0
    obtain ⟨hm2, hne⟩ := (mem_aremove_iff _ _ _).mp hm0
    obtain ⟨jr0, hjr0, hp0⟩ := hinv.finishPc id0 k0 u0 hm2
    exact ⟨jr0, by rw [hoth (fun e => hne e.symm)]; exact hjr0, hp0⟩
  case setPathPc =>
    intro id0 k0 u0 hm0
    obtain ⟨hm2, hne⟩ := (mem_aremove_iff _ _ _).mp hm0
    obtain ⟨jr0, hjr0, hp0, hd0⟩ := hinv.setPathPc id0 k0 u0 hm2
    exact ⟨jr0, by rw [hoth (fun e => hne e.symm)]; exact hjr0, hp0, hd0⟩
  case sucPc =>
    intro id0 k0 u0 hm0
    obtain ⟨hm2, hne⟩ := (mem_aremove_iff _ _ _).mp hm0
    obtain ⟨jr0, hjr0, hp0, hrp0, hd0⟩ := hinv.sucPc id0 k0 u0 hm2
    exact ⟨jr0, by rw [hoth (fun e => hne e.symm)]; exact hjr0, hp0, hrp0, hd0⟩
  case failPc1 =>
    intro id0 k0 u0 hm0
    obtain ⟨hm2, hne⟩ := (mem_aremove_iff _ _ _).mp hm0
    exact hinv.failPc1 id0 k0 u0 hm2
  case failPc2 =>
    intro id0 k0 u0 hm0
    obtain ⟨hm2, hne⟩ := (mem_aremove_iff _ _ _).mp hm0
    obtain ⟨jr0, hjr0, hrp0, hd0⟩ := hinv.failPc2 id0 k0 u0 hm2
    exact ⟨jr0, by rw [hoth (fun e => hne e.symm)]; exact hjr0, hrp0, hd0⟩
  case suc =>
    intro id0 jr0 hl hst
    by_cases he : id = id0
    · subst he
      rw [hself, Option.some.injEq] at hl
      rw [← hl] at hst
      simp at hst
    · rw [hoth he] at hl
      exact hinv.suc id0 jr0 hl hst
  case fai =>
    intro id0 jr0 hl hst
    by_cases he : id = id0
    · subst he
      rw [hself, Option.some.injEq] at hl
      rw [← hl]
      exact ⟨hrp, hd⟩
    · rw [hoth he] at hl
      exact hinv.fai id0 jr0 hl hst

/-- Every step of the system preserves the invariant. -/
theorem inv_step (env : String → Nat × Nat) (avail : Bool) {s s2 : Sys}
    (hinv : Inv env avail s) (hstep : Step env avail s s2) : Inv env avail s2 := by
  cases hstep with
  | create job_id workflow_id user_id file_id jt branch hfresh =>
    exact step_create_inv env avail s job_id workflow_id user_id file_id jt branch hfresh hinv
  | enqueue job_id => exact step_enqueue_inv env avail s job_id hinv
  | cancel job_id => exact step_cancel_inv env avail s job_id hinv
  | retry job_id => exact step_retry_inv env avail s job_id hinv
  | startFound id jr htask hjob =>
    exact step_startFound_inv env avail s id jr htask hjob hinv
  | startMissing id htask hjob =>
    exact step_startMissing_inv env avail s id htask hjob hinv
  | acqBranch id k u htask hfree =>
    exact step_acqBranch_inv env avail s id k u htask hfree hinv
  | check1Exit id k u htask hcm =>
    exact inv_task_exit env avail s id k (WPC.check1 k u) s.activeWorkers s.semAvail
      htask rfl rfl hinv
  | check1Go id k u htask hcm =>
    exact inv_gate_move env avail s id k (WPC.check1 k u) (WPC.acqUser k u)
      s.activeWorkers s.semAvail htask rfl rfl rfl rfl rfl rfl hinv
  | acqUser id k u htask hgate =>
    exact inv_acquire_user env avail _ u
      (inv_gate_move env avail s id k (WPC.acqUser k u) (WPC.check2 k u)
        s.activeWorkers s.semAvail htask rfl rfl rfl rfl rfl rfl hinv)
  | check2Exit id k u htask hcm =>
    exact inv_release_user env avail _ u
      (inv_task_exit env avail s id k (WPC.check2 k u) s.activeWorkers s.semAvail
        htask rfl rfl hinv)
  | check2Go id k u htask hcm =>
    exact inv_gate_move env avail s id k (WPC.check2 k u) (WPC.acqSem k u)
      s.activeWorkers s.semAvail htask rfl rfl rfl rfl rfl rfl hinv
  | acqSem id k u htask hsem =>
    exact inv_gate_move env avail s id k (WPC.acqSem k u) (WPC.check3 k u)
      s.activeWorkers (s.semAvail - 1) htask rfl rfl rfl rfl rfl rfl hinv
  | check3Exit id k u htask hcm =>
    exact inv_release_user env avail _ u
      (inv_task_exit env avail s id k (WPC.check3 k u) s.activeWorkers (s.semAvail + 1)
        htask rfl rfl hinv)
  | check3Go id k u htask hcm =>
    exact inv_gate_move env avail s id k (WPC.check3 k u) (WPC.setRunning k u)
      (s.activeWorkers + 1) s.semAvail htask rfl rfl rfl rfl rfl rfl hinv
  | setRunningFound id k u jr htask hjob =>
    exact step_setRunningFound_inv env avail s id k u jr htask hjob hinv
  | setRunningMissing id k u htask hjob =>
    exact inv_release_user env avail _ u
      (inv_task_exit env avail s id k (WPC.setRunning k u)
        (s.activeWorkers - 1) (s.semAvail + 1) htask rfl rfl hinv)
  | loopStep id k u real p t htask hlt =>
    exact step_loopStep_inv env avail s id k u real p t htask hlt hinv
  | loopDone id k u real p t htask hge =>
    exact step_loopDone_inv env avail s id k u real p t htask hge hinv
  | raiseLoop id k u real p t htask =>
    exact step_raise_inv env avail s id k u (WPC.loop k u real p t) htask rfl rfl rfl hinv
  | raiseFinish id k u htask =>
    exact step_raise_inv env avail s id k u (WPC.finish k u) htask rfl rfl rfl hinv
  | finishOk id k u htask =>
    exact step_finishOk_inv env avail s id k u htask hinv
  | setPathStep id k u htask =>
    exact step_setPathStep_inv env avail s id k u htask hinv
  | succeedStep id k u htask =>
    exact inv_release_user env avail _ u
      (step_succeed_exit_inv env avail s id k u
        (s.activeWorkers - 1) (s.semAvail + 1) htask hinv)
  | failSetPathStep id k u htask =>
    exact step_failSetPathStep_inv env avail s id k u htask hinv
  | failStateStep id k u htask =>
    exact inv_release_user env avail _ u
      (step_fail_exit_inv env avail s id k u
        (s.activeWorkers - 1) (s.semAvail + 1) htask hinv)

/-- The invariant holds in every reachable state. -/
theorem inv_reachable (env : String → Nat × Nat) (avail : Bool) {s : Sys}
    (h : Reachable env avail s) : Inv env avail s := by
  induction h with
  | refl => exact inv_init env avail
  | tail hsteps hstep ih => exact inv_step env avail ih hstep

/-- On the 1 by 1 witness image the tile loop of jA runs exactly once. -/
theorem tile_total_jrA : tile_total false env0 jrA = 1 := by
  have h1 : tile_total false env0 jrA = (iter_tiles 1 1).length := by
    simp [tile_total, jrA, create_job_rec, env0]
  rw [h1]
  unfold iter_tiles
  rw [iterTilesWith_eq_rowMajor]
  decide

/-- The witness trace reaches the state where jA is RUNNING inside its loop. -/
theorem reach_w11 : Reachable env0 false w11 := by
  have h0 : Reachable env0 false Sys.init := Relation.ReflTransGen.refl
  have h1 : Reachable env0 false w1 :=
    Relation.ReflTransGen.tail h0
      (Step.create Sys.init "jA" "w1" "uA" "f1" JobType.TISSUE_MASK none rfl)
  have h2 : Reachable env0 false w2 :=
    Relation.ReflTransGen.tail h1
      (Step.create w1 "jB" "w1" "uB" "f1" JobType.TISSUE_MASK none rfl)
  have h3 : Reachable env0 false w3 :=
    Relation.ReflTransGen.tail h2 (Step.enqueue w2 "jA")
  have h4 : Reachable env0 false w4 :=
    Relation.ReflTransGen.tail h3 (Step.startFound w3 "jA" jrA (by decide) rfl)
  have h5 : Reachable env0 false w5 :=
    Relation.ReflTransGen.tail h4 (Step.acqBranch w4 "jA" kA "uA" (by decide) rfl)
  have h6 : Reachable env0 false w6 :=
    Relation.ReflTransGen.tail h5 (Step.check1Go w5 "jA" kA "uA" (by decide) rfl)
  have h7 : Reachable env0 false w7 :=
    Relation.ReflTransGen.tail h6
      (Step.acqUser w6 "jA" kA "uA" (by decide) (Or.inr (by decide)))
  have h8 : Reachable env0 false w8 :=
    Relation.ReflTransGen.tail h7 (Step.check2Go w7 "jA" kA "uA" (by decide) rfl)
  have h9 : Reachable env0 false w9 :=
    Relation.ReflTransGen.tail h8 (Step.acqSem w8 "jA" kA "uA" (by decide) (by decide))
  have h10 : Reachable env0 false w10 :=
    Relation.ReflTransGen.tail h9 (Step.check3Go w9 "jA" kA "uA" (by decide) rfl)
  have he : { w10 with
              jobs := (update_job_state w10.jobs "jA" JobState.RUNNING).2,
              tasks := taskUpd w10.tasks "jA"
                (WPC.loop kA "uA" (real_tiled false jrA) 0
                  (tile_total false env0 jrA)) } = w11 := by
    rw [tile_total_jrA]
    rfl
  have h11 : Step env0 false w10 w11 := by
    rw [← he]
    exact Step.setRunningFound w10 "jA" kA "uA" jrA (by decide) rfl
  exact Relation.ReflTransGen.tail h10 h11

/-- The witness trace extends to the state where jA has SUCCEEDED. -/
theorem reach_w16 : Reachable env0 false w16 := by
  have h12 : Reachable env0 false w12 :=
    Relation.ReflTransGen.tail reach_w11
      (Step.loopStep w11 "jA" kA "uA" true 0 1 (by decide) (by decide))
  have h13 : Reachable env0 false w13 :=
    Relation.ReflTransGen.tail h12
      (Step.loopDone w12 "jA" kA "uA" true 1 1 (by decide) (by decide))
  have h14 : Reachable env0 false w14 :=
    Relation.ReflTransGen.tail h13 (Step.finishOk w13 "jA" kA "uA" (by decide))
  have h15 : Reachable env0 false w15 :=
    Relation.ReflTransGen.tail h14 (Step.setPathStep w14 "jA" kA "uA" (by decide))
  exact Relation.ReflTransGen.tail h15 (Step.succeedStep w15 "jA" kA "uA" (by decide))

/-- The failure branch of the witness trace reaches a state where jA FAILED. -/
theorem reach_v14 : Reachable env0 false v14 := by
  have h12 : Reachable env0 false v12 :=
    Relation.ReflTransGen.tail reach_w11
      (Step.raiseLoop w11 "jA" kA "uA" true 0 1 (by decide))
  have h13 : Reachable env0 false v13 :=
    Relation.ReflTransGen.tail h12 (Step.failSetPathStep v12 "jA" kA "uA" (by decide))
  exact Relation.ReflTransGen.tail h13 (Step.failStateStep v13 "jA" kA "uA" (by decide))

/-- C1: in every reachable state of the scheduler's step relation, two distinct
jobs with the same workflow id and the same effective branch are never both
RUNNING: the branch mutex admits at most one running job per branch key. -/
theorem C1_serial_branch (env : String → Nat × Nat) (avail : Bool) (s : Sys)
    (hreach : Reachable env avail s) (id1 id2 : String) (jr1 jr2 : JobRec)
    (hne : id1 ≠ id2)
    (h1 : alookup s.jobs id1 = some jr1) (h2 : alookup s.jobs id2 = some jr2)
    (hwf : jr1.workflow_id = jr2.workflow_id)
    (hbr : effective_branch jr1 = effective_branch jr2) :
    ¬ (jr1.state = JobState.RUNNING ∧ jr2.state = JobState.RUNNING) := by
  rintro ⟨hr1, hr2⟩
  have hinv := inv_reachable env avail hreach
  obtain ⟨pc1, hm1, hex1, hk1⟩ := hinv.run id1 jr1 h1 hr1
  obtain ⟨pc2, hm2, hex2, hk2⟩ := hinv.run id2 jr2 h2 hr2
  have ho1 := hinv.held id1 pc1 (effKey jr1) hm1 hk1
  have ho2 := hinv.held id2 pc2 (effKey jr2) hm2 hk2
  have hkeq : effKey jr1 = effKey jr2 := by
    unfold effKey
    rw [hwf, hbr]
  rw [hkeq, ho2] at ho1
  injection ho1 with he
  exact hne he.symm

/-- C6: in every reachable state, a FAILED job's result path references the
error.json artifact of its job directory, and that artifact is on disk. -/
theorem C6_failed_error_artifact (env : String → Nat × Nat) (avail : Bool) (s : Sys)
    (hreach : Reachable env avail s) (id : String) (jr : JobRec)
    (h : alookup s.jobs id = some jr) (hf : jr.state = JobState.FAILED) :
    jr.result_path = some (errorPath id) ∧ errorPath id ∈ s.disk :=
  (inv_reachable env avail hreach).fai id jr h hf

/-- C7: when every image decodes to positive dimensions, in every reachable
state a SUCCEEDED job has progress 1, its result path references the manifest
of its job directory, and the manifest is on disk; the path is set before the
transition to SUCCEEDED, so no state shows SUCCEEDED with an empty path. -/
theorem C7_succeeded_invariant (env : String → Nat × Nat) (avail : Bool) (s : Sys)
    (henv : ∀ f, 0 < (env f).1 ∧ 0 < (env f).2)
    (hreach : Reachable env avail s) (id : String) (jr : JobRec)
    (h : alookup s.jobs id = some jr) (hs : jr.state = JobState.SUCCEEDED) :
    jr.progress = 1 ∧ jr.result_path = some (manifestPath id) ∧
      manifestPath id ∈ s.disk := by
  obtain ⟨hp, hrp, hd⟩ := (inv_reachable env avail hreach).suc id jr h hs
  exact ⟨hp henv, hrp, hd⟩

/-- Closed witness for C1: in the reachable trace state w11 the jobs jA and jB
share workflow w1 and the default branch, and with jA RUNNING the theorem
rules out jB also being RUNNING. -/
theorem C1_serial_branch_witness :
    ("jA" : String) ≠ "jB" ∧
    alookup w11.jobs "jA" = some jrARun ∧ alookup w11.jobs "jB" = some jrB ∧
    jrARun.workflow_id = jrB.workflow_id ∧
    effective_branch jrARun = effective_branch jrB ∧
    ¬ (jrARun.state = JobState.RUNNING ∧ jrB.state = JobState.RUNNING) :=
  ⟨by decide, rfl, rfl, rfl, rfl,
   C1_serial_branch env0 false w11 reach_w11 "jA" "jB" jrARun jrB
     (by decide) rfl rfl rfl rfl⟩

/-- Closed witness for C6: in the reachable trace state v14 the job jA is
FAILED and the theorem yields its error artifact. -/
theorem C6_failed_error_artifact_witness :
    alookup v14.jobs "jA" = some jrAFail ∧ jrAFail.state = JobState.FAILED ∧
    (jrAFail.result_path = some (errorPath "jA") ∧ errorPath "jA" ∈ v14.disk) :=
  ⟨rfl, rfl, C6_failed_error_artifact env0 false v14 reach_v14 "jA" jrAFail rfl rfl⟩

/-- Closed witness for C7: in the reachable trace state w16 the job jA is
SUCCEEDED and the theorem yields progress 1 and the manifest artifact. -/
theorem C7_succeeded_invariant_witness :
    (∀ f, 0 < (env0 f).1 ∧ 0 < (env0 f).2) ∧
    alookup w16.jobs "jA" = some jrASuc ∧ jrASuc.state = JobState.SUCCEEDED ∧
    (jrASuc.progress = 1 ∧ jrASuc.result_path = some (manifestPath "jA") ∧
      manifestPath "jA" ∈ w16.disk) :=
  ⟨fun f => ⟨Nat.one_pos, Nat.one_pos⟩, rfl, rfl,
   C7_succeeded_invariant env0 false w16 (fun f => ⟨Nat.one_pos, Nat.one_pos⟩)
     reach_w16 "jA" jrASuc rfl rfl⟩

/-- C9: enqueue_job is idempotent.  Enqueuing twice equals enqueuing once; an
already scheduled job id is a no-op, so no second worker task is spawned;
otherwise the id joins the scheduled set and exactly one worker task starts. -/
theorem C9_enqueue_idempotent (s : Sys) (job_id : String) :
    enqueue_job (enqueue_job s job_id) job_id = enqueue_job s job_id ∧
    (job_id ∈ s.scheduled → enqueue_job s job_id = s) ∧
    (job_id ∉ s.scheduled →
      (enqueue_job s job_id).scheduled = job_id :: s.scheduled ∧
      (enqueue_job s job_id).tasks = (job_id, WPC.start) :: s.tasks) := by
  by_cases hin : job_id ∈ s.scheduled
  · have h1 : enqueue_job s job_id = s := by
      unfold enqueue_job
      rw [if_pos hin]
    refine ⟨?_, fun _ => h1, fun hno => absurd hin hno⟩
    rw [h1, h1]
  · have h1 : enqueue_job s job_id =
        { s with scheduled := job_id :: s.scheduled,
                 tasks := (job_id, WPC.start) :: s.tasks } := by
      unfold enqueue_job
      rw [if_neg hin]
    refine ⟨?_, fun hyes => absurd hyes hin, fun _ => by rw [h1]; exact ⟨rfl, rfl⟩⟩
    rw [h1]
    unfold enqueue_job
    rw [if_pos (List.mem_cons_self _ _)]

/-- Closed witness for C9: enqueuing j1 twice from the initial state equals
enqueuing it once. -/
theorem C9_enqueue_idempotent_witness :
    enqueue_job (enqueue_job Sys.init "j1") "j1" = enqueue_job Sys.init "j1" :=
  (C9_enqueue_idempotent Sys.init "j1").1

end TLS
